import Mathlib

/-
Verification development for the shifts-gcal-connector repository: a shallow
embedding in Lean 4 of the reconciliation engine (SyncService.sync and
SyncService.processShift), the entity mapper (dataMapper.ts), the sync ledger
(stateStore.ts) and the calendar sink gateway (calendarClient.ts), together
with theorems about the embedded definitions.

Conventions of the embedding:
- JavaScript strings are Lean String, machine timestamps are Int epoch
  milliseconds; a JavaScript Date is Option Int, none standing for an
  Invalid Date (NaN time value).
- The JavaScript object used as the ledger record map is an association list
  List (String × SyncRecord): property set keeps the position of an existing
  key and appends a new key, matching insertion-order key enumeration.
- Fallible calls return Except; the external Google calendar API is an
  oracle (a record of functions giving each call an outcome), and the
  embedded operations also return the list of raw API calls they perform.
- File-system effects are returned as a list of FsOp operations.
-/

namespace ShiftsGcal

set_option maxHeartbeats 1000000

/-- Numeric value of an ASCII digit character. -/
def digitVal (c : Char) : Nat := c.toNat - 48

/-- Two ASCII digits read as a two-digit number, none when not digits. -/
def twoDigits (a b : Char) : Option Nat :=
  if a.isDigit && b.isDigit then some (digitVal a * 10 + digitVal b) else none

/-- Gregorian leap-year test. -/
def isLeapYear (y : Int) : Bool := (y % 4 == 0 && y % 100 != 0) || y % 400 == 0

/-- Number of days of month m (1..12) in year y. -/
def daysInMonth (y : Int) (m : Nat) : Nat :=
  if m = 2 then (if isLeapYear y then 29 else 28)
  else if m = 4 || m = 6 || m = 9 || m = 11 then 30 else 31

/-- Days from 1970-01-01 to the civil date y-m-d (proleptic Gregorian),
using floor division so the computation is valid for every year. -/
def daysFromCivil (y : Int) (m d : Nat) : Int :=
  let y2 : Int := if m ≤ 2 then y - 1 else y
  let era : Int := Int.fdiv y2 400
  let yoe : Int := y2 - era * 400
  let mp : Int := (Int.ofNat m + 9) % 12
  let doy : Int := Int.fdiv (153 * mp + 2) 5 + Int.ofNat d - 1
  let doe : Int := yoe * 365 + Int.fdiv yoe 4 - Int.fdiv yoe 100 + doy
  era * 146097 + doe - 719468

/-- Fractional-second part after the dot: one or more digits, of which the
first three are the milliseconds (shorter runs scale up, longer truncate,
as the V8 Date parser does). Returns the value and the unconsumed rest. -/
def parseMillis (cs : List Char) : Option (Nat × List Char) :=
  let ds := cs.takeWhile Char.isDigit
  let rest := cs.dropWhile Char.isDigit
  if ds.isEmpty then none
  else
    let d3 := ds.take 3
    let v := d3.foldl (fun a c => a * 10 + digitVal c) 0
    some (v * 10 ^ (3 - d3.length), rest)

/-- Time-zone designator of an ISO date-time: empty (treated as offset 0 in
this embedding, which models a UTC host environment), Z, or a signed
HH:MM offset in minutes. -/
def parseOffset : List Char → Option Int
  | [] => some 0
  | ['Z'] => some 0
  | [s, h1, h2, ':', m1, m2] =>
    if s = '+' || s = '-' then
      match twoDigits h1 h2, twoDigits m1 m2 with
      | some hh, some mm =>
        if hh ≤ 23 && mm ≤ 59 then
          let mins : Int := Int.ofNat (hh * 60 + mm)
          some (if s = '-' then -mins else mins)
        else none
      | _, _ => none
    else none
  | _ => none

/-- Time-of-day part HH:MM[:SS[.sss]] followed by the offset designator.
Returns milliseconds into the day and the offset in minutes. -/
def parseTimeOfDay : List Char → Option (Nat × Int)
  | (h1 :: h2 :: ':' :: m1 :: m2 :: rest) =>
    match twoDigits h1 h2, twoDigits m1 m2 with
    | some hh, some mm =>
      if hh > 24 || mm > 59 then none else
      let secPart : Option (Nat × Nat × List Char) :=
        match rest with
        | (':' :: s1 :: s2 :: rest2) =>
          match twoDigits s1 s2 with
          | some ss =>
            if ss > 59 then none else
            match rest2 with
            | ('.' :: rest3) => (parseMillis rest3).map (fun p => (ss, p.1, p.2))
            | _ => some (ss, 0, rest2)
          | none => none
        | _ => some (0, 0, rest)
      match secPart with
      | none => none
      | some (ss, ms, rest4) =>
        match parseOffset rest4 with
        | none => none
        | some off =>
          if hh = 24 && (mm ≠ 0 || ss ≠ 0 || ms ≠ 0) then none
          else some ((hh * 3600 + mm * 60 + ss) * 1000 + ms, off)
    | _, _ => none
  | _ => none

/-- Embedding of the ECMAScript Date constructor on the ISO 8601 date-time
strings this system handles: YYYY-MM-DD[THH:MM[:SS[.s...]]][Z|+-HH:MM],
giving the epoch-millisecond time value; none is an Invalid Date (NaN).
An absent offset is read as UTC, modeling a UTC host environment. -/
def parseDate (s : String) : Option Int :=
  match s.toList with
  | (y1 :: y2 :: y3 :: y4 :: '-' :: mo1 :: mo2 :: '-' :: d1 :: d2 :: rest) =>
    if y1.isDigit && y2.isDigit && y3.isDigit && y4.isDigit then
      let y : Nat := digitVal y1 * 1000 + digitVal y2 * 100 + digitVal y3 * 10 + digitVal y4
      match twoDigits mo1 mo2, twoDigits d1 d2 with
      | some mo, some d =>
        if 1 ≤ mo && mo ≤ 12 && 1 ≤ d && d ≤ daysInMonth (Int.ofNat y) mo then
          match rest with
          | [] => some (daysFromCivil (Int.ofNat y) mo d * 86400000)
          | ('T' :: timeRest) =>
            match parseTimeOfDay timeRest with
            | some (msOfDay, off) =>
              some (daysFromCivil (Int.ofNat y) mo d * 86400000 + Int.ofNat msOfDay - off * 60000)
            | none => none
          | _ => none
        else none
      | _, _ => none
    else none
  | _ => none

/-- JavaScript Date comparison d1 > d2: numeric comparison of time values,
false whenever either side is an Invalid Date (NaN). -/
def dateGt : Option Int → Option Int → Bool
  | some x, some y => decide (y < x)
  | _, _ => false

/-- JavaScript Date comparison d >= n against a valid instant n. -/
def dateGe (x : Option Int) (n : Int) : Bool :=
  match x with
  | some v => decide (n ≤ v)
  | none => false

/-- JavaScript Date comparison d <= n against a valid instant n. -/
def dateLe (x : Option Int) (n : Int) : Bool :=
  match x with
  | some v => decide (v ≤ n)
  | none => false

/-! ## Data model (src/types/index.ts) -/

/-- One entry of a shift payload activity list (ShiftActivity). -/
structure ShiftActivity where
  isPaid : Bool
  startDateTime : String
  endDateTime : String
  code : String
  displayName : String
deriving Repr, DecidableEq

/-- Payload of a live shift (ShiftItem). The theme is kept as a raw string:
the color table lookup falls back to a neutral default on unknown values. -/
structure ShiftItem where
  displayName : Option String
  notes : Option String
  startDateTime : String
  endDateTime : String
  theme : String
  activities : List ShiftActivity
deriving Repr, DecidableEq

/-- A shift record from the scheduling source (Shift). -/
structure Shift where
  id : String
  createdDateTime : String
  lastModifiedDateTime : String
  schedulingGroupId : Option String
  userId : String
  isStagedForDeletion : Bool
  sharedShift : Option ShiftItem
  draftShift : Option ShiftItem
deriving Repr, DecidableEq

/-- One ledger entry (SyncRecord). -/
structure SyncRecord where
  calendarEventId : String
  lastModified : String
deriving Repr, DecidableEq

/-- The ledger record map: a JavaScript object keyed by shift id, embedded
as an association list in key-insertion order. -/
abbrev Records := List (String × SyncRecord)

/-- Time block of a calendar event body. -/
structure CalendarEventTime where
  dateTime : String
  timeZone : String
deriving Repr, DecidableEq

/-- Calendar event representation sent to the sink (CalendarEventInput).
The private extended-properties map is flattened to a key-value list. -/
structure CalendarEventInput where
  id : Option String
  summary : String
  description : Option String
  start : CalendarEventTime
  stop : CalendarEventTime
  colorId : Option String
  extendedPropsPrivate : List (String × String)
deriving Repr, DecidableEq

/-! ## Entity mapper (src/utils/dataMapper.ts) and window predicates
(src/services/graphClient.ts) -/

/-- ASCII alphanumeric class of the regex [^a-zA-Z0-9] used by
generateEventId (the regex classes are ASCII-only). -/
def isAsciiAlphanum (c : Char) : Bool :=
  (65 ≤ c.toNat && c.toNat ≤ 90) || (97 ≤ c.toNat && c.toNat ≤ 122) ||
    (48 ≤ c.toNat && c.toNat ≤ 57)

/-- ASCII case of String.prototype.toLowerCase, the only case relevant to
the alphanumeric characters generateEventId keeps. -/
def jsToLowerChar (c : Char) : Char :=
  if 65 ≤ c.toNat && c.toNat ≤ 90 then Char.ofNat (c.toNat + 32) else c

/-- generateEventId: strips every character outside [a-zA-Z0-9], lowercases
the rest and prefixes the fixed namespace token. -/
def generateEventId (shiftId : String) : String :=
  "shift" ++ String.mk ((shiftId.toList.filter isAsciiAlphanum).map jsToLowerChar)

/-- The sink identifier constraint: an ASCII lowercase letter or digit. -/
def isLowerAlnum (c : Char) : Bool :=
  (97 ≤ c.toNat && c.toNat ≤ 122) || (48 ≤ c.toNat && c.toNat ≤ 57)

/-- isActiveUserShift from graphClient.ts: owner match, not staged for
deletion, and a present (truthy) shared payload. -/
def isActiveUserShift (shift : Shift) (userId : String) : Bool :=
  shift.userId == userId && !shift.isStagedForDeletion && shift.sharedShift.isSome

/-- isInSyncWindow from graphClient.ts: false without a shared payload,
otherwise the parsed interval must satisfy shiftEnd >= now and
shiftStart <= endDate (Date comparisons, false on Invalid Date). -/
def isInSyncWindow (shift : Shift) (now endDate : Int) : Bool :=
  match shift.sharedShift with
  | none => false
  | some sh => dateGe (parseDate sh.endDateTime) now && dateLe (parseDate sh.startDateTime) endDate

/-- hasShiftChanged from dataMapper.ts: a falsy (absent or empty) prior
timestamp means changed; otherwise the Date comparison
new Date(shift.lastModifiedDateTime) > new Date(lastModified). -/
def hasShiftChanged (shift : Shift) (lastModified : Option String) : Bool :=
  match lastModified with
  | none => true
  | some lm =>
    if lm = "" then true
    else dateGt (parseDate shift.lastModifiedDateTime) (parseDate lm)

/-- THEME_TO_COLOR table of dataMapper.ts. -/
def THEME_TO_COLOR : List (String × String) :=
  [("white", "8"), ("blue", "9"), ("green", "10"), ("purple", "3"),
   ("pink", "4"), ("yellow", "5"), ("gray", "8"), ("darkBlue", "9"),
   ("darkGreen", "10"), ("darkPurple", "3"), ("darkPink", "4"),
   ("darkYellow", "5")]

/-- THEME_TO_COLOR[theme] with the || fallback to the neutral entry. -/
def themeColor (theme : String) : String :=
  match THEME_TO_COLOR.find? (fun p => p.1 == theme) with
  | some p => p.2
  | none => "8"

/-- Rendering of one instant by toLocaleTimeString en-US
(hour numeric, minute 2-digit, 12-hour clock), in UTC as this embedding
models a UTC host; an Invalid Date renders as the fixed invalid marker. -/
def formatTime (ms : Option Int) : String :=
  match ms with
  | none => "Invalid Date"
  | some t =>
    let minutesOfDay := (Int.emod (Int.fdiv t 60000) 1440).toNat
    let h24 := minutesOfDay / 60
    let m := minutesOfDay % 60
    let h12 := if h24 % 12 = 0 then 12 else h24 % 12
    let ampm := if h24 < 12 then "AM" else "PM"
    toString h12 ++ ":" ++ (if m < 10 then "0" ++ toString m else toString m) ++ " " ++ ampm

/-- formatTimeRange from dataMapper.ts. -/
def formatTimeRange (start stop : String) : String :=
  formatTime (parseDate start) ++ " - " ++ formatTime (parseDate stop)

/-- Bullet line for one activity of the shift description. -/
def activityLine (a : ShiftActivity) : String :=
  "- " ++ (if a.displayName = "" then a.code else a.displayName) ++
    (if a.isPaid then "" else " (unpaid)") ++ " - " ++
    formatTimeRange a.startDateTime a.endDateTime

/-- shiftToCalendarEvent from dataMapper.ts: none without a shared payload;
otherwise title with default fallback, color from the theme table,
description assembled from notes, the activity list and the provenance
footer, and provenance metadata in the private extended properties.
(The activity-header emoji and bullet glyphs are rendered as ASCII.) -/
def shiftToCalendarEvent (shift : Shift) (defaultTitle : String) (timeZone : String) :
    Option CalendarEventInput :=
  match shift.sharedShift with
  | none => none
  | some shiftData =>
    let title :=
      match shiftData.displayName with
      | some n => if n = "" then defaultTitle else n
      | none => defaultTitle
    let colorId := themeColor shiftData.theme
    let notesParts : List String :=
      match shiftData.notes with
      | some n => if n = "" then [] else [n]
      | none => []
    let activityParts : List String :=
      if shiftData.activities.length > 0 then
        "\nActivities:" :: shiftData.activities.map activityLine
      else []
    let descriptionParts := notesParts ++ activityParts ++ ["\n---\nSynced from Microsoft Teams Shifts"]
    some
      { id := none
        summary := title
        description := some (String.intercalate "\n" descriptionParts)
        start := { dateTime := shiftData.startDateTime, timeZone := timeZone }
        stop := { dateTime := shiftData.endDateTime, timeZone := timeZone }
        colorId := some colorId
        extendedPropsPrivate :=
          [("shiftId", shift.id), ("source", "teams-shifts-sync"),
           ("lastModified", shift.lastModifiedDateTime)] }

/-! ## Calendar sink gateway (src/services/calendarClient.ts) -/

/-- An error thrown by a Google API call: its numeric code (404 is the
distinguishable not-found condition) and its message. -/
structure ApiError where
  code : Nat
  msg : String
deriving Repr, DecidableEq

/-- Outcomes the external Google calendar API gives to each raw call: an
oracle standing for the remote service. update and delete yield unit or an
error; insert yields the id of the stored event (response.data.id). -/
structure GoogleCalendarApi where
  update : String → CalendarEventInput → Except ApiError Unit
  insert : CalendarEventInput → Except ApiError String
  delete : String → Except ApiError Unit

/-- A raw calendar API call, recorded for the call trace. The insert call
records the event id requested in the body. -/
inductive ApiCall where
  | update (id : String)
  | insert (id : String)
  | delete (id : String)
deriving Repr, DecidableEq

/-- The spread body sent by upsertEvent: the event with id set. -/
def withEventId (event : CalendarEventInput) (eventId : String) : CalendarEventInput :=
  { event with id := some eventId }

/-- CalendarClient.upsertEvent: try an update addressed by eventId; on a
404 fall back to a single insert requesting that same id; any other error
propagates. Returns the operation outcome and the raw calls performed. -/
def upsertEvent (api : GoogleCalendarApi) (eventId : String) (event : CalendarEventInput) :
    Except ApiError String × List ApiCall :=
  match api.update eventId (withEventId event eventId) with
  | .ok _ => (.ok eventId, [.update eventId])
  | .error e =>
    if e.code = 404 then
      (api.insert (withEventId event eventId), [.update eventId, .insert eventId])
    else
      (.error e, [.update eventId])

/-- CalendarClient.deleteEvent: delete by id, swallowing a 404 (the event
is already gone) and propagating any other error. -/
def deleteEvent (api : GoogleCalendarApi) (eventId : String) :
    Except ApiError Unit × List ApiCall :=
  match api.delete eventId with
  | .ok _ => (.ok (), [.delete eventId])
  | .error e =>
    if e.code = 404 then (.ok (), [.delete eventId])
    else (.error e, [.delete eventId])

/-! ## Sync ledger (src/utils/stateStore.ts) -/

/-- The full persisted ledger (SyncState, versioned layout). -/
structure SyncState where
  version : Nat
  lastSync : String
  records : Records
deriving Repr, DecidableEq

def CURRENT_VERSION : Nat := 1

def EMPTY_STATE : SyncState := { version := CURRENT_VERSION, lastSync := "", records := [] }

/-- StateStore.getRecord: property read on the record map. -/
def getRecord (records : Records) (shiftId : String) : Option SyncRecord :=
  (records.find? (fun p => p.1 = shiftId)).map (fun p => p.2)

/-- StateStore.setRecord: property write on the record map — an existing
key keeps its position, a new key is appended. -/
def setRecord (records : Records) (shiftId : String) (record : SyncRecord) : Records :=
  if records.any (fun p => p.1 = shiftId) then
    records.map (fun p => if p.1 = shiftId then (shiftId, record) else p)
  else
    records ++ [(shiftId, record)]

/-- StateStore.deleteRecord: property delete on the record map. -/
def deleteRecord (records : Records) (shiftId : String) : Records :=
  records.filter (fun p => !(p.1 = shiftId : Bool))

/-- StateStore.getAllShiftIds: Object.keys of the record map. -/
def getAllShiftIds (records : Records) : List String :=
  records.map (fun p => p.1)

/-- JSON string literal of the serialized ledger. Escaping of exotic
characters is elided; no theorem depends on the exact bytes. -/
def jsonString (s : String) : String := "\"" ++ s ++ "\""

/-- One serialized record entry. -/
def serializeRecord (p : String × SyncRecord) : String :=
  jsonString p.1 ++ ": \x7b\"calendarEventId\": " ++ jsonString p.2.calendarEventId ++
    ", \"lastModified\": " ++ jsonString p.2.lastModified ++ "\x7d"

/-- JSON.stringify of the ledger: version, lastSync and the record map in
their creation order. -/
def serializeState (st : SyncState) : String :=
  "\x7b\"version\": " ++ toString st.version ++ ", \"lastSync\": " ++
    jsonString st.lastSync ++ ", \"records\": \x7b" ++
    String.intercalate ", " (st.records.map serializeRecord) ++ "\x7d\x7d"

/-- A file-system effect performed by the state store. -/
inductive FsOp where
  | writeFile (path content : String)
  | rename (src dst : String)
deriving Repr, DecidableEq

/-- StateStore.save: stamps lastSync with the current time unless
preserveLastSync is set, stamps the current schema version, and performs a
single direct writeFile of the serialized ledger to the state-file path.
Returns the updated in-memory state and the file-system effects. -/
def save (st : SyncState) (preserveLastSync : Bool) (now filePath : String) :
    SyncState × List FsOp :=
  let st1 := if preserveLastSync then st else { st with lastSync := now }
  let st2 := { st1 with version := CURRENT_VERSION }
  (st2, [FsOp.writeFile filePath (serializeState st2)])

/-- What StateStore.load finds in the state file: nothing (ENOENT), a
legacy layout (no version key), or a versioned layout. -/
inductive StoredFile where
  | absent
  | legacy (lastSync : String) (records : Records)
  | versioned (version : Nat) (lastSync : String) (records : Records)
deriving Repr, DecidableEq

/-- migrateFromLegacy: stamps the current version, keeping lastSync and the
records as they were. -/
def migrateFromLegacy (lastSync : String) (records : Records) : SyncState :=
  { version := CURRENT_VERSION, lastSync := lastSync, records := records }

/-- StateStore.load: a missing file starts a fresh empty ledger; a legacy
layout is migrated and the migration immediately persisted through
save(true); a versioned layout newer than supported fails; otherwise the
parsed state is adopted. Returns the in-memory state and the file-system
effects, or the fatal error message. -/
def load (input : StoredFile) (now filePath : String) :
    Except String (SyncState × List FsOp) :=
  match input with
  | .absent => .ok ({ EMPTY_STATE with records := [] }, [])
  | .legacy lastSync records =>
    let migrated := migrateFromLegacy lastSync records
    .ok (save migrated true now filePath)
  | .versioned version lastSync records =>
    if version > CURRENT_VERSION then
      .error ("State file version " ++ toString version ++
        " is newer than supported version " ++ toString CURRENT_VERSION ++
        ". Please upgrade shifts-gcal-connector.")
    else
      .ok ({ version := version, lastSync := lastSync, records := records }, [])

/-! ## File-system semantics for crash analysis of save -/

/-- A file system: content by path. -/
def FS := String → Option String

/-- Effect of one completed file-system operation. -/
def applyFsOp (fs : FS) : FsOp → FS
  | .writeFile p c => fun q => if q = p then some c else fs q
  | .rename s d => fun q => if q = d then fs s else if q = s then none else fs q

/-- Effect of a completed sequence of file-system operations. -/
def applyFsOps (fs : FS) (ops : List FsOp) : FS :=
  ops.foldl applyFsOp fs

/-- Interrupted ops fs fs2: the process was killed while performing ops on
fs, leaving fs2. The kill can come between operations, or in the middle of
a writeFile — leaving any proper prefix of the content, a torn file; a
rename is atomic. -/
inductive Interrupted : List FsOp → FS → FS → Prop
  | stop (ops : List FsOp) (fs : FS) : Interrupted ops fs fs
  | step (op : FsOp) (ops : List FsOp) (fs fs2 : FS) :
      Interrupted ops (applyFsOp fs op) fs2 → Interrupted (op :: ops) fs fs2
  | tornWrite (p c t : String) (rest : List Char) (ops : List FsOp) (fs : FS) :
      c.data = t.data ++ rest → t ≠ c →
      Interrupted (FsOp.writeFile p c :: ops) fs (applyFsOp fs (FsOp.writeFile p t))

/-- The crash guarantee claimed of save: however a run of ops on fs is
interrupted, the state file still holds either its previous content or the
fully written new content — never a torn intermediate. -/
def crashSafe (ops : List FsOp) (path : String) : Prop :=
  ∀ (fs fs2 : FS), Interrupted ops fs fs2 →
    fs2 path = fs path ∨ fs2 path = applyFsOps fs ops path

/-! ## Reconciliation engine (src/services/syncService.ts, the dry-run
aware SyncService) -/

/-- Aggregate counters and error list of one run (SyncResult). -/
structure SyncResult where
  created : Nat
  updated : Nat
  deleted : Nat
  skipped : Nat
  errors : List String
deriving Repr, DecidableEq

def emptyResult : SyncResult :=
  { created := 0, updated := 0, deleted := 0, skipped := 0, errors := [] }

/-- The state threaded through the two loops of sync: the record map, the
result object, and the trace of raw calendar API calls performed so far. -/
abbrev LoopSt := Records × SyncResult × List ApiCall

/-- The skip test of processShift: a record is known and the shift has not
changed since it (existingRecord && !hasShiftChanged(...)). -/
def skipCheck (r : Option SyncRecord) (shift : Shift) : Bool :=
  match r with
  | some rec => !hasShiftChanged shift (some rec.lastModified)
  | none => false

/-- SyncService.processShift: skip an unchanged known shift; skip an
unmappable shift; in a dry run only classify; otherwise upsert and record
the returned event id with the shift modification stamp. An error of the
upsert is returned to the caller (the throw), leaving records and counters
untouched. The raw API calls performed are returned alongside. -/
def processShift (api : GoogleCalendarApi) (defaultTitle timeZone : String)
    (dryRun : Bool) (shift : Shift) (records : Records) (result : SyncResult) :
    Except ApiError (Records × SyncResult) × List ApiCall :=
  let eventId := generateEventId shift.id
  let existingRecord := getRecord records shift.id
  if skipCheck existingRecord shift then
    (.ok (records, { result with skipped := result.skipped + 1 }), [])
  else
    match shiftToCalendarEvent shift defaultTitle timeZone with
    | none => (.ok (records, { result with skipped := result.skipped + 1 }), [])
    | some event =>
      if dryRun then
        (.ok (records,
          if existingRecord.isSome then { result with updated := result.updated + 1 }
          else { result with created := result.created + 1 }), [])
      else
        match upsertEvent api eventId event with
        | (.ok createdId, calls) =>
          let records2 := setRecord records shift.id
            { calendarEventId := createdId, lastModified := shift.lastModifiedDateTime }
          (.ok (records2,
            if existingRecord.isSome then { result with updated := result.updated + 1 }
            else { result with created := result.created + 1 }), calls)
        | (.error e, calls) => (.error e, calls)

/-- SyncService.deleteShift: nothing to do without a ledger record; in a
dry run only classify; otherwise delete the recorded calendar event and
drop the ledger record. A delete error is returned to the caller. -/
def deleteShift (api : GoogleCalendarApi) (dryRun : Bool) (shiftId : String)
    (records : Records) (result : SyncResult) :
    Except ApiError (Records × SyncResult) × List ApiCall :=
  match getRecord records shiftId with
  | none => (.ok (records, result), [])
  | some record =>
    if dryRun then
      (.ok (records, { result with deleted := result.deleted + 1 }), [])
    else
      match deleteEvent api record.calendarEventId with
      | (.ok _, calls) =>
        (.ok (deleteRecord records shiftId, { result with deleted := result.deleted + 1 }), calls)
      | (.error e, calls) => (.error e, calls)

/-- The caught-error message of the per-shift loop. -/
def syncFailMsg (shiftId msg : String) : String :=
  "Failed to sync shift " ++ shiftId ++ ": " ++ msg

/-- The caught-error message of the deletion sweep. -/
def deleteFailMsg (shiftId msg : String) : String :=
  "Failed to delete shift " ++ shiftId ++ ": " ++ msg

/-- One iteration of the per-shift loop of sync: processShift inside the
try/catch that records a named error and continues. -/
def procStep (api : GoogleCalendarApi) (defaultTitle timeZone : String) (dryRun : Bool)
    (st : LoopSt) (shift : Shift) : LoopSt :=
  match processShift api defaultTitle timeZone dryRun shift st.1 st.2.1 with
  | (.ok (records2, result2), calls) => (records2, result2, st.2.2 ++ calls)
  | (.error e, calls) =>
    (st.1, { st.2.1 with errors := st.2.1.errors ++ [syncFailMsg shift.id e.msg] },
     st.2.2 ++ calls)

/-- One iteration of the deletion sweep of sync: shift ids still current
are kept; deleteShift runs inside the try/catch that records a named error
and continues. -/
def delStep (api : GoogleCalendarApi) (dryRun : Bool) (currentShiftIds : List String)
    (st : LoopSt) (shiftId : String) : LoopSt :=
  if currentShiftIds.contains shiftId then st
  else
    match deleteShift api dryRun shiftId st.1 st.2.1 with
    | (.ok (records2, result2), calls) => (records2, result2, st.2.2 ++ calls)
    | (.error e, calls) =>
      (st.1, { st.2.1 with errors := st.2.1.errors ++ [deleteFailMsg shiftId e.msg] },
       st.2.2 ++ calls)

/-- Output of one sync run: the returned result, the final in-memory
ledger state, the raw calendar API calls performed, and the file-system
effects of the final persist (empty for a dry run). -/
structure SyncOutput where
  result : SyncResult
  state : SyncState
  apiCalls : List ApiCall
  saveOps : List FsOp
deriving Repr, DecidableEq

/-- SyncService.sync over an already fetched shift list: the per-shift
loop, the deletion sweep over the ledger keys snapshot against the current
shift-id set, and the final persist — skipped entirely on a dry run. -/
def sync (api : GoogleCalendarApi) (defaultTitle timeZone : String) (dryRun : Bool)
    (shifts : List Shift) (state : SyncState) (now filePath : String) : SyncOutput :=
  let currentShiftIds := shifts.map (fun s => s.id)
  let st1 := shifts.foldl (procStep api defaultTitle timeZone dryRun)
    (state.records, emptyResult, [])
  let previousShiftIds := getAllShiftIds st1.1
  let st2 := previousShiftIds.foldl (delStep api dryRun currentShiftIds) st1
  if dryRun then
    { result := st2.2.1, state := { state with records := st2.1 },
      apiCalls := st2.2.2, saveOps := [] }
  else
    let saved := save { state with records := st2.1 } false now filePath
    { result := st2.2.1, state := saved.1, apiCalls := st2.2.2, saveOps := saved.2 }

/-- main (src/index.ts): exits 1 when the run reported errors, 0 after a
clean run. -/
def mainExitCode (result : SyncResult) : Nat :=
  if result.errors.length > 0 then 1 else 0

/-! ## Per-item summaries used to state the run-level theorems -/

/-- What one iteration of the per-shift loop does to the shift, given the
record the ledger holds for it when its turn comes. -/
inductive ItemOutcome where
  | skippedUnchanged
  | skippedUnmappable
  | upserted (createdId : String) (wasUpdate : Bool)
  | failed (msg : String)
deriving Repr, DecidableEq

/-- The per-item outcome of processShift, as a function of the ledger
record the shift meets. -/
def processOutcome (api : GoogleCalendarApi) (defaultTitle timeZone : String)
    (r : Option SyncRecord) (shift : Shift) : ItemOutcome :=
  if skipCheck r shift then .skippedUnchanged
  else
    match shiftToCalendarEvent shift defaultTitle timeZone with
    | none => .skippedUnmappable
    | some event =>
      match (upsertEvent api (generateEventId shift.id) event).1 with
      | .ok createdId => .upserted createdId r.isSome
      | .error e => .failed e.msg

/-- The caught error the per-shift loop records for this shift, if any. -/
def itemError (api : GoogleCalendarApi) (defaultTitle timeZone : String)
    (r : Option SyncRecord) (shift : Shift) : Option String :=
  match processOutcome api defaultTitle timeZone r shift with
  | .failed msg => some (syncFailMsg shift.id msg)
  | _ => none

/-- What the deletion sweep does to a stale shift id, given its ledger
record. -/
inductive DelOutcome where
  | noRecord
  | deleted
  | failed (msg : String)
deriving Repr, DecidableEq

/-- The per-item outcome of deleteShift given the ledger record met. -/
def delOutcome (api : GoogleCalendarApi) (r : Option SyncRecord) : DelOutcome :=
  match r with
  | none => .noRecord
  | some record =>
    match (deleteEvent api record.calendarEventId).1 with
    | .ok _ => .deleted
    | .error e => .failed e.msg

/-- The caught error the deletion sweep records for this shift id, if
any. -/
def delError (api : GoogleCalendarApi) (r : Option SyncRecord) (shiftId : String) :
    Option String :=
  match delOutcome api r with
  | .failed msg => some (deleteFailMsg shiftId msg)
  | _ => none

/-- The dry-run classification of one shift, given the ledger record it
meets: the same skip / create / update decision as a real run whose upsert
succeeds. -/
inductive Class where
  | skip
  | create
  | update
deriving Repr, DecidableEq

/-- The classification processShift assigns, as a function of the ledger
record met (independent of the sink). -/
def classify (defaultTitle timeZone : String) (r : Option SyncRecord) (shift : Shift) : Class :=
  if skipCheck r shift then .skip
  else
    match shiftToCalendarEvent shift defaultTitle timeZone with
    | none => .skip
    | some _ => if r.isSome then .update else .create

/-- The outcome counts as a create. -/
def outcomeCreates : ItemOutcome → Bool
  | .upserted _ false => true
  | _ => false

/-- The outcome counts as an update. -/
def outcomeUpdates : ItemOutcome → Bool
  | .upserted _ true => true
  | _ => false

/-- The outcome counts as a skip. -/
def outcomeSkips : ItemOutcome → Bool
  | .skippedUnchanged => true
  | .skippedUnmappable => true
  | _ => false

/-! ## Concrete fixtures used to instantiate the run-level theorems -/

/-- A calendar API oracle whose calls all succeed. -/
def sampleApi : GoogleCalendarApi where
  update := fun _ _ => .ok ()
  insert := fun ev => .ok (ev.id.getD "created")
  delete := fun _ => .ok ()

/-- A concrete shift payload. -/
def sampleItem : ShiftItem :=
  { displayName := some "Shift A", notes := none,
    startDateTime := "2024-01-02T09:00:00Z", endDateTime := "2024-01-02T17:00:00Z",
    theme := "blue", activities := [] }

/-- A concrete in-window shift. -/
def sampleShift : Shift :=
  { id := "s1", createdDateTime := "2024-01-01T00:00:00Z",
    lastModifiedDateTime := "2024-01-02T03:04:05Z",
    schedulingGroupId := none, userId := "u1", isStagedForDeletion := false,
    sharedShift := some sampleItem, draftShift := none }

/-- A concrete empty ledger at the current schema version. -/
def sampleState : SyncState := { version := CURRENT_VERSION, lastSync := "", records := [] }

/-! ## Basic lemmas about the embedded primitives -/

theorem parseDate_empty : parseDate "" = none := rfl

theorem dateGt_self (x : Option Int) : dateGt x x = false := by
  cases x <;> simp [dateGt]

theorem parseDate_some_ne_empty {t : String} {y : Int} (h : parseDate t = some y) : t ≠ "" := by
  intro he
  subst he
  rw [parseDate_empty] at h
  exact Option.noConfusion h

/-- A shift never counts as changed against its own modification stamp,
provided the stamp is not the empty (falsy) string. -/
theorem hasShiftChanged_self (s : Shift) (h : s.lastModifiedDateTime ≠ "") :
    hasShiftChanged s (some s.lastModifiedDateTime) = false := by
  simp [hasShiftChanged, h, dateGt_self]

theorem toNat_ofNat_small (m : Nat) (h : m < 200) : (Char.ofNat m).toNat = m := by
  unfold Char.ofNat
  rw [dif_pos (Or.inl (by omega))]
  simp [Char.ofNatAux, Char.toNat, UInt32.toNat, BitVec.toNat_ofNatLt]

theorem jsToLowerChar_lowerAlnum (c : Char) (h : isAsciiAlphanum c = true) :
    isLowerAlnum (jsToLowerChar c) = true := by
  simp only [isAsciiAlphanum, Bool.or_eq_true, Bool.and_eq_true, decide_eq_true_eq] at h
  unfold jsToLowerChar isLowerAlnum
  rcases h with (⟨h1, h2⟩ | ⟨h1, h2⟩) | ⟨h1, h2⟩
  · rw [if_pos (by simp; omega)]
    have := toNat_ofNat_small (c.toNat + 32) (by omega)
    simp [this]
    omega
  · rw [if_neg (by simp; omega)]
    simp
    omega
  · rw [if_neg (by simp; omega)]
    simp
    omega

/-! ## Claim theorems: mapper-level claims -/

/-- C3: isInSyncWindow over a present payload with interval [start, end]
and window [now, now+h] holds iff end >= now and start <= now+h (both
boundaries inclusive, so an interval touching either boundary is
in-window); with an absent payload it never holds. -/
theorem isInSyncWindow_spec :
    (∀ (shift : Shift) (item : ShiftItem) (now h ss es : Int),
      shift.sharedShift = some item →
      parseDate item.startDateTime = some ss →
      parseDate item.endDateTime = some es →
      (isInSyncWindow shift now (now + h) = true ↔ (now ≤ es ∧ ss ≤ now + h)))
    ∧ (∀ (shift : Shift) (now endDate : Int),
      shift.sharedShift = none → isInSyncWindow shift now endDate = false) := by
  constructor
  · intro shift item now h ss es hsh hs he
    simp [isInSyncWindow, hsh, hs, he, dateGe, dateLe]
  · intro shift now endDate hsh
    simp [isInSyncWindow, hsh]

/-- C4: hasShiftChanged is true exactly when no prior timestamp is known
(absent or empty) or the shift modification instant is strictly later than
the prior instant, comparing parsed time instants; two prior timestamps
denoting the same instant in different textual formats give the same
answer. -/
theorem hasShiftChanged_spec :
    (∀ (shift : Shift) (lastModified : Option String),
      (hasShiftChanged shift lastModified = true ↔
        (lastModified = none ∨ lastModified = some "" ∨
          ∃ t x y, lastModified = some t ∧
            parseDate shift.lastModifiedDateTime = some x ∧ parseDate t = some y ∧ y < x)))
    ∧ (∀ (shift : Shift) (t u : String) (y : Int),
      parseDate t = some y → parseDate u = some y →
      hasShiftChanged shift (some t) = hasShiftChanged shift (some u)) := by
  constructor
  · intro shift lastModified
    cases lastModified with
    | none => simp [hasShiftChanged]
    | some lm =>
      by_cases hlm : lm = ""
      · subst hlm
        simp [hasShiftChanged, parseDate_empty]
      · rw [hasShiftChanged, if_neg hlm]
        constructor
        · intro hgt
          refine Or.inr (Or.inr ?_)
          cases hx : parseDate shift.lastModifiedDateTime with
          | none => rw [hx] at hgt; simp [dateGt] at hgt
          | some x =>
            cases hy : parseDate lm with
            | none => rw [hx, hy] at hgt; simp [dateGt] at hgt
            | some yv =>
              rw [hx, hy] at hgt
              simp only [dateGt, decide_eq_true_eq] at hgt
              exact ⟨lm, x, yv, rfl, rfl, hy, hgt⟩
        · rintro (h | h | ⟨t, x, y, hteq, hx, hy, hlt⟩)
          · exact Option.noConfusion h
          · exact absurd (Option.some.inj h) hlm
          · obtain rfl : lm = t := Option.some.inj hteq
            rw [hx, hy]
            simp only [dateGt, decide_eq_true_eq]
            exact hlt
  · intro shift t u y ht hu
    simp [hasShiftChanged, parseDate_some_ne_empty ht, parseDate_some_ne_empty hu, ht, hu]

/-- C5: generateEventId is deterministic, never empty, begins with the
fixed namespace prefix, and yields only ASCII lowercase letters and
digits. -/
theorem generateEventId_spec (s t : String) :
    (s = t → generateEventId s = generateEventId t)
    ∧ generateEventId s ≠ ""
    ∧ (∃ rest, generateEventId s = "shift" ++ rest)
    ∧ (∀ c ∈ (generateEventId s).toList, isLowerAlnum c = true) := by
  refine ⟨fun h => by rw [h], ?_, ⟨_, rfl⟩, ?_⟩
  · intro h
    have h2 : 's' :: ("hift".data ++ (s.toList.filter isAsciiAlphanum).map jsToLowerChar)
        = ([] : List Char) := congrArg String.data h
    exact List.cons_ne_nil _ _ h2
  · intro c hc
    have hdata : (generateEventId s).toList
        = "shift".toList ++ (s.toList.filter isAsciiAlphanum).map jsToLowerChar := rfl
    rw [hdata] at hc
    rcases List.mem_append.mp hc with h5 | hrest
    · fin_cases h5 <;> decide
    · rcases List.mem_map.mp hrest with ⟨c0, hc0, rfl⟩
      exact jsToLowerChar_lowerAlnum c0 (List.of_mem_filter hc0)

/-- C10: generateEventId is not injective: the distinct shift ids A-B and
ab derive the same calendar event id. -/
theorem generateEventId_not_injective :
    generateEventId "A-B" = generateEventId "ab" ∧ "A-B" ≠ "ab" := by
  constructor
  · rfl
  · decide

/-! ## Claim theorems: calendar sink gateway -/

/-- C7: a not-found (404) during the update step of upsertEvent triggers a
single fallback insert requesting the same id, whose outcome is returned; a
404 during deleteEvent is success; any non-404 failure propagates from
both operations. -/
theorem upsert_delete_absence_spec (api : GoogleCalendarApi) (eventId : String)
    (event : CalendarEventInput) (e : ApiError) :
    (api.update eventId (withEventId event eventId) = .error e → e.code = 404 →
      upsertEvent api eventId event =
        (api.insert (withEventId event eventId), [ApiCall.update eventId, ApiCall.insert eventId]))
    ∧ (api.update eventId (withEventId event eventId) = .error e → e.code ≠ 404 →
      upsertEvent api eventId event = (.error e, [ApiCall.update eventId]))
    ∧ (api.delete eventId = .error e → e.code = 404 →
      deleteEvent api eventId = (.ok (), [ApiCall.delete eventId]))
    ∧ (api.delete eventId = .error e → e.code ≠ 404 →
      deleteEvent api eventId = (.error e, [ApiCall.delete eventId])) := by
  refine ⟨?_, ?_, ?_, ?_⟩ <;> intro h h4 <;> simp [upsertEvent, deleteEvent, h, h4]

/-! ## Claim theorems: ledger load and save -/

/-- C6: loading a legacy (unversioned) ledger migrates it to the current
schema version, immediately persists the migrated ledger, and the
persisted lastSync stamp equals the legacy value unchanged. -/
theorem load_legacy_migration (lastSync now filePath : String) (records : Records) :
    ∃ st ops, load (.legacy lastSync records) now filePath = .ok (st, ops) ∧
      st.version = CURRENT_VERSION ∧ st.lastSync = lastSync ∧ st.records = records ∧
      ops = [FsOp.writeFile filePath (serializeState st)] := by
  exact ⟨_, _, rfl, rfl, rfl, rfl, rfl⟩

theorem serializeState_data_two (st : SyncState) :
    ∃ r, (serializeState st).data = '\x7b' :: '\"' :: r :=
  ⟨_, rfl⟩

theorem serializeState_ne_empty (st : SyncState) : "" ≠ serializeState st := by
  intro h
  obtain ⟨r, hr⟩ := serializeState_data_two st
  have h2 := congrArg String.data h
  rw [hr] at h2
  exact List.noConfusion h2

theorem serializeState_ne_brace (st : SyncState) : "\x7b" ≠ serializeState st := by
  intro h
  obtain ⟨r, hr⟩ := serializeState_data_two st
  have h2 := congrArg String.data h
  rw [hr] at h2
  have h3 := (List.cons.inj h2).2
  exact List.noConfusion h3

/-- C2 counterexample: the file-system effect of save is not crash safe —
interrupting the run at a concrete ledger state can leave the state file
holding a torn content that is neither the previous valid content nor the
new serialized ledger. -/
theorem save_not_crash_safe :
    ¬ crashSafe
      (save { version := 1, lastSync := "t0", records := [] } false
        "2024-01-01T00:00:00Z" "sync-state.json").2 "sync-state.json" := by
  intro hcs
  have hint : Interrupted
      (save { version := 1, lastSync := "t0", records := [] } false
        "2024-01-01T00:00:00Z" "sync-state.json").2
      (fun q => if q = "sync-state.json" then some "OLD" else none)
      (applyFsOp (fun q => if q = "sync-state.json" then some "OLD" else none)
        (FsOp.writeFile "sync-state.json" "")) :=
    Interrupted.tornWrite "sync-state.json" _ "" _ []
      (fun q => if q = "sync-state.json" then some "OLD" else none) rfl
      (serializeState_ne_empty _)
  have h := hcs _ _ hint
  exact absurd h (by decide)

/-- C2 amended: save performs a single direct writeFile of the serialized
ledger to the state-file path — no temp file, no rename — and consequently
an interruption mid-write can leave the state file with content that is
neither the previous content nor the new serialized ledger. -/
theorem save_single_direct_write (st : SyncState) (preserve : Bool) (now filePath : String)
    (fs : FS) :
    (save st preserve now filePath).2 =
      [FsOp.writeFile filePath (serializeState (save st preserve now filePath).1)]
    ∧ ∃ fs2, Interrupted (save st preserve now filePath).2 fs fs2 ∧
        fs2 filePath ≠ fs filePath ∧
        fs2 filePath ≠ applyFsOps fs (save st preserve now filePath).2 filePath := by
  refine ⟨rfl, ?_⟩
  by_cases h0 : fs filePath = some ""
  · refine ⟨applyFsOp fs (FsOp.writeFile filePath "\x7b"),
      Interrupted.tornWrite filePath _ "\x7b" _ [] fs rfl (serializeState_ne_brace _), ?_, ?_⟩
    · simp only [applyFsOp, if_pos rfl, h0]
      intro h
      exact List.noConfusion (congrArg String.data (Option.some.inj h))
    · simp only [applyFsOp, applyFsOps, List.foldl, if_pos rfl]
      intro h
      exact serializeState_ne_brace _ (Option.some.inj h)
  · refine ⟨applyFsOp fs (FsOp.writeFile filePath ""),
      Interrupted.tornWrite filePath _ "" _ [] fs rfl (serializeState_ne_empty _), ?_, ?_⟩
    · simp only [applyFsOp, if_pos rfl]
      exact fun h => h0 h.symm
    · simp only [applyFsOp, applyFsOps, List.foldl, if_pos rfl]
      intro h
      exact serializeState_ne_empty _ (Option.some.inj h)

/-! ## Record-map lemmas -/

theorem getRecord_cons (p : String × SyncRecord) (recs : Records) (id : String) :
    getRecord (p :: recs) id = if p.1 = id then some p.2 else getRecord recs id := by
  by_cases h : p.1 = id <;> simp [getRecord, List.find?, h]

theorem getRecord_append (l1 l2 : Records) (id : String) :
    getRecord (l1 ++ l2) id =
      match getRecord l1 id with
      | some r => some r
      | none => getRecord l2 id := by
  induction l1 with
  | nil => simp [getRecord, List.find?]
  | cons p rest ih =>
    rw [List.cons_append, getRecord_cons, getRecord_cons]
    by_cases h : p.1 = id <;> simp [h, ih]

theorem getRecord_map_set (recs : Records) (id : String) (r : SyncRecord) (id2 : String) :
    getRecord (recs.map (fun p => if p.1 = id then (id, r) else p)) id2 =
      (getRecord recs id2).map (fun r2 => if id2 = id then r else r2) := by
  induction recs with
  | nil => simp [getRecord, List.find?]
  | cons p rest ih =>
    simp only [List.map_cons]
    by_cases hp : p.1 = id
    · by_cases hq : p.1 = id2
      · have hid : id2 = id := hq.symm.trans hp
        simp [if_pos hp, getRecord_cons, hp, hq, hid]
      · have hne : id ≠ id2 := fun hc => hq (hp.trans hc)
        simp [if_pos hp, getRecord_cons, hne, hq, ih]
    · by_cases hq : p.1 = id2
      · have hne : id2 ≠ id := fun hc => hp (hq.trans hc)
        simp [if_neg hp, getRecord_cons, hq, hne]
      · simp [if_neg hp, getRecord_cons, hq, ih]

theorem any_iff_mem_keys (recs : Records) (id : String) :
    (recs.any fun p => p.1 = id) = true ↔ id ∈ getAllShiftIds recs := by
  rw [List.any_eq_true]
  unfold getAllShiftIds
  rw [List.mem_map]
  simp

theorem getRecord_none_iff (recs : Records) (id : String) :
    getRecord recs id = none ↔ id ∉ getAllShiftIds recs := by
  induction recs with
  | nil => simp [getRecord, List.find?, getAllShiftIds]
  | cons p rest ih =>
    rw [getRecord_cons]
    by_cases hp : p.1 = id
    · simp [getAllShiftIds, hp]
    · simp only [if_neg hp, getAllShiftIds, List.map_cons, List.mem_cons]
      rw [ih]
      unfold getAllShiftIds
      constructor
      · rintro hnone (h1 | h1)
        · exact hp h1.symm
        · exact hnone h1
      · intro hni
        exact fun h1 => hni (Or.inr h1)

theorem getRecord_setRecord_self (recs : Records) (id : String) (r : SyncRecord) :
    getRecord (setRecord recs id r) id = some r := by
  unfold setRecord
  by_cases hmem : (recs.any fun p => p.1 = id) = true
  · rw [if_pos hmem, getRecord_map_set]
    cases hx : getRecord recs id with
    | none =>
      exact absurd ((any_iff_mem_keys recs id).mp hmem) ((getRecord_none_iff recs id).mp hx)
    | some r2 => simp
  · rw [if_neg hmem, getRecord_append]
    have hnone : getRecord recs id = none := by
      rw [getRecord_none_iff]
      intro hc
      exact hmem ((any_iff_mem_keys recs id).mpr hc)
    rw [hnone]
    simp [getRecord_cons]

theorem getRecord_setRecord_ne (recs : Records) (id : String) (r : SyncRecord)
    (id2 : String) (h : id2 ≠ id) :
    getRecord (setRecord recs id r) id2 = getRecord recs id2 := by
  unfold setRecord
  by_cases hmem : (recs.any fun p => p.1 = id) = true
  · rw [if_pos hmem, getRecord_map_set]
    cases hx : getRecord recs id2 with
    | none => simp
    | some r2 => simp [h]
  · rw [if_neg hmem, getRecord_append]
    cases hx : getRecord recs id2 with
    | none => simp [getRecord_cons, Ne.symm h, getRecord, List.find?]
    | some r2 => simp

theorem getRecord_deleteRecord_self (recs : Records) (id : String) :
    getRecord (deleteRecord recs id) id = none := by
  induction recs with
  | nil => rfl
  | cons p rest ih =>
    unfold deleteRecord at ih ⊢
    rw [List.filter_cons]
    by_cases hp : p.1 = id
    · rw [if_neg (by simp [hp])]
      exact ih
    · rw [if_pos (by simp [hp]), getRecord_cons, if_neg hp]
      exact ih

theorem getRecord_deleteRecord_ne (recs : Records) (id id2 : String) (h : id2 ≠ id) :
    getRecord (deleteRecord recs id) id2 = getRecord recs id2 := by
  induction recs with
  | nil => rfl
  | cons p rest ih =>
    unfold deleteRecord at ih ⊢
    rw [List.filter_cons]
    by_cases hp : p.1 = id
    · rw [if_neg (by simp [hp]), getRecord_cons, if_neg (by rw [hp]; exact Ne.symm h)]
      exact ih
    · rw [if_pos (by simp [hp]), getRecord_cons, getRecord_cons]
      by_cases hpq : p.1 = id2 <;> simp [hpq, ih]

theorem keys_setRecord (recs : Records) (id : String) (r : SyncRecord) :
    getAllShiftIds (setRecord recs id r) =
      if id ∈ getAllShiftIds recs then getAllShiftIds recs
      else getAllShiftIds recs ++ [id] := by
  unfold setRecord
  by_cases hmem : (recs.any fun p => p.1 = id) = true
  · rw [if_pos hmem, if_pos ((any_iff_mem_keys recs id).mp hmem)]
    unfold getAllShiftIds
    rw [List.map_map]
    apply List.map_congr_left
    intro p _
    by_cases hp : p.1 = id <;> simp [hp]
  · rw [if_neg hmem, if_neg (fun hc => hmem ((any_iff_mem_keys recs id).mpr hc))]
    simp [getAllShiftIds]

theorem keys_deleteRecord (recs : Records) (id : String) :
    getAllShiftIds (deleteRecord recs id) = (getAllShiftIds recs).filter (fun q => q ≠ id) := by
  induction recs with
  | nil => rfl
  | cons p rest ih =>
    unfold deleteRecord getAllShiftIds at ih ⊢
    rw [List.filter_cons, List.map_cons, List.filter_cons]
    by_cases hp : p.1 = id
    · rw [if_neg (by simp [hp]), if_neg (by simp [hp])]
      exact ih
    · rw [if_pos (by simp [hp]), if_pos (by simp [hp]), List.map_cons]
      rw [ih]

theorem keysNodup_setRecord (recs : Records) (id : String) (r : SyncRecord)
    (h : (getAllShiftIds recs).Nodup) :
    (getAllShiftIds (setRecord recs id r)).Nodup := by
  rw [keys_setRecord]
  by_cases hmem : id ∈ getAllShiftIds recs
  · rwa [if_pos hmem]
  · rw [if_neg hmem]
    simp [List.nodup_append, h, hmem]

theorem keysNodup_deleteRecord (recs : Records) (id : String)
    (h : (getAllShiftIds recs).Nodup) :
    (getAllShiftIds (deleteRecord recs id)).Nodup := by
  rw [keys_deleteRecord]
  exact h.filter _

/-! ## Per-item outcome facts -/

theorem skipCheck_of_unchanged (api : GoogleCalendarApi) (t z : String)
    (r : Option SyncRecord) (shift : Shift)
    (h : processOutcome api t z r shift = .skippedUnchanged) :
    skipCheck r shift = true := by
  unfold processOutcome at h
  split at h
  · assumption
  · split at h
    · simp at h
    · split at h <;> simp at h

theorem facts_of_unmappable (api : GoogleCalendarApi) (t z : String)
    (r : Option SyncRecord) (shift : Shift)
    (h : processOutcome api t z r shift = .skippedUnmappable) :
    skipCheck r shift = false ∧ shiftToCalendarEvent shift t z = none := by
  unfold processOutcome at h
  split at h
  · simp at h
  · next hskip =>
    refine ⟨by simpa using hskip, ?_⟩
    split at h
    · assumption
    · split at h <;> simp at h

theorem facts_of_upserted (api : GoogleCalendarApi) (t z : String)
    (r : Option SyncRecord) (shift : Shift) (cid : String) (w : Bool)
    (h : processOutcome api t z r shift = .upserted cid w) :
    skipCheck r shift = false ∧ w = r.isSome ∧
      ∃ ev calls, shiftToCalendarEvent shift t z = some ev ∧
        upsertEvent api (generateEventId shift.id) ev = (.ok cid, calls) := by
  unfold processOutcome at h
  split at h
  · simp at h
  · next hskip =>
    refine ⟨by simpa using hskip, ?_⟩
    split at h
    · simp at h
    · next ev heq =>
      split at h
      · next cid2 hup =>
        obtain ⟨h1, h2⟩ := ItemOutcome.upserted.inj h
        refine ⟨h2.symm, ev, (upsertEvent api (generateEventId shift.id) ev).2, heq, ?_⟩
        refine Prod.ext ?_ rfl
        rw [hup, h1]
      · simp at h

theorem facts_of_failed (api : GoogleCalendarApi) (t z : String)
    (r : Option SyncRecord) (shift : Shift) (m : String)
    (h : processOutcome api t z r shift = .failed m) :
    skipCheck r shift = false ∧
      ∃ ev e calls, shiftToCalendarEvent shift t z = some ev ∧
        upsertEvent api (generateEventId shift.id) ev = (.error e, calls) ∧ e.msg = m := by
  unfold processOutcome at h
  split at h
  · simp at h
  · next hskip =>
    refine ⟨by simpa using hskip, ?_⟩
    split at h
    · simp at h
    · next ev heq =>
      split at h
      · simp at h
      · next e hup =>
        exact ⟨ev, e, (upsertEvent api (generateEventId shift.id) ev).2,
          heq, Prod.ext hup rfl, ItemOutcome.failed.inj h⟩

theorem delOutcome_noRecord_iff (api : GoogleCalendarApi) (r : Option SyncRecord) :
    delOutcome api r = .noRecord ↔ r = none := by
  cases r with
  | none => simp [delOutcome]
  | some rec =>
    simp only [delOutcome]
    cases hdel : (deleteEvent api rec.calendarEventId).1 <;> simp

theorem facts_of_delDeleted (api : GoogleCalendarApi) (rec : SyncRecord)
    (h : delOutcome api (some rec) = .deleted) :
    ∃ calls, deleteEvent api rec.calendarEventId = (.ok (), calls) := by
  simp only [delOutcome] at h
  split at h
  · next u hdel =>
    exact ⟨(deleteEvent api rec.calendarEventId).2, Prod.ext hdel rfl⟩
  · simp at h

theorem facts_of_delFailed (api : GoogleCalendarApi) (rec : SyncRecord) (m : String)
    (h : delOutcome api (some rec) = .failed m) :
    ∃ e calls, deleteEvent api rec.calendarEventId = (.error e, calls) ∧ e.msg = m := by
  simp only [delOutcome] at h
  split at h
  · simp at h
  · next e hdel =>
    exact ⟨e, (deleteEvent api rec.calendarEventId).2, Prod.ext hdel rfl,
      DelOutcome.failed.inj h⟩

/-! ## Loop-step characterizations -/

theorem processShift_skip (api : GoogleCalendarApi) (t z : String) (dry : Bool)
    (shift : Shift) (recs : Records) (res : SyncResult)
    (h : skipCheck (getRecord recs shift.id) shift = true) :
    processShift api t z dry shift recs res =
      (.ok (recs, { res with skipped := res.skipped + 1 }), []) := by
  simp only [processShift]
  rw [if_pos h]

theorem processShift_unmappable (api : GoogleCalendarApi) (t z : String) (dry : Bool)
    (shift : Shift) (recs : Records) (res : SyncResult)
    (hskip : skipCheck (getRecord recs shift.id) shift = false)
    (hev : shiftToCalendarEvent shift t z = none) :
    processShift api t z dry shift recs res =
      (.ok (recs, { res with skipped := res.skipped + 1 }), []) := by
  simp only [processShift]
  rw [if_neg (by simp [hskip])]
  simp only [hev]

theorem processShift_real_upserted (api : GoogleCalendarApi) (t z : String)
    (shift : Shift) (recs : Records) (res : SyncResult) (ev : CalendarEventInput)
    (cid : String) (calls : List ApiCall)
    (hskip : skipCheck (getRecord recs shift.id) shift = false)
    (hev : shiftToCalendarEvent shift t z = some ev)
    (hup : upsertEvent api (generateEventId shift.id) ev = (.ok cid, calls)) :
    processShift api t z false shift recs res =
      (.ok (setRecord recs shift.id
          { calendarEventId := cid, lastModified := shift.lastModifiedDateTime },
        if (getRecord recs shift.id).isSome then { res with updated := res.updated + 1 }
        else { res with created := res.created + 1 }), calls) := by
  simp only [processShift]
  rw [if_neg (by simp [hskip])]
  simp only [hev, hup]
  simp

theorem processShift_real_failed (api : GoogleCalendarApi) (t z : String)
    (shift : Shift) (recs : Records) (res : SyncResult) (ev : CalendarEventInput)
    (e : ApiError) (calls : List ApiCall)
    (hskip : skipCheck (getRecord recs shift.id) shift = false)
    (hev : shiftToCalendarEvent shift t z = some ev)
    (hup : upsertEvent api (generateEventId shift.id) ev = (.error e, calls)) :
    processShift api t z false shift recs res = (.error e, calls) := by
  simp only [processShift]
  rw [if_neg (by simp [hskip])]
  simp only [hev, hup]
  simp

theorem processShift_dry_mappable (api : GoogleCalendarApi) (t z : String)
    (shift : Shift) (recs : Records) (res : SyncResult) (ev : CalendarEventInput)
    (hskip : skipCheck (getRecord recs shift.id) shift = false)
    (hev : shiftToCalendarEvent shift t z = some ev) :
    processShift api t z true shift recs res =
      (.ok (recs,
        if (getRecord recs shift.id).isSome then { res with updated := res.updated + 1 }
        else { res with created := res.created + 1 }), []) := by
  simp only [processShift]
  rw [if_neg (by simp [hskip])]
  simp only [hev]
  simp

theorem procStep_skipresult (api : GoogleCalendarApi) (t z : String) (dry : Bool)
    (st : LoopSt) (shift : Shift)
    (h : skipCheck (getRecord st.1 shift.id) shift = true) :
    procStep api t z dry st shift =
      (st.1, { st.2.1 with skipped := st.2.1.skipped + 1 }, st.2.2) := by
  simp only [procStep, processShift_skip api t z dry shift st.1 st.2.1 h]
  simp

theorem procStep_unmappable (api : GoogleCalendarApi) (t z : String) (dry : Bool)
    (st : LoopSt) (shift : Shift)
    (hskip : skipCheck (getRecord st.1 shift.id) shift = false)
    (hev : shiftToCalendarEvent shift t z = none) :
    procStep api t z dry st shift =
      (st.1, { st.2.1 with skipped := st.2.1.skipped + 1 }, st.2.2) := by
  simp only [procStep, processShift_unmappable api t z dry shift st.1 st.2.1 hskip hev]
  simp

theorem procStep_real_upserted (api : GoogleCalendarApi) (t z : String)
    (st : LoopSt) (shift : Shift) (ev : CalendarEventInput) (cid : String)
    (calls : List ApiCall)
    (hskip : skipCheck (getRecord st.1 shift.id) shift = false)
    (hev : shiftToCalendarEvent shift t z = some ev)
    (hup : upsertEvent api (generateEventId shift.id) ev = (.ok cid, calls)) :
    procStep api t z false st shift =
      (setRecord st.1 shift.id
          { calendarEventId := cid, lastModified := shift.lastModifiedDateTime },
        (if (getRecord st.1 shift.id).isSome then { st.2.1 with updated := st.2.1.updated + 1 }
         else { st.2.1 with created := st.2.1.created + 1 }),
        st.2.2 ++ calls) := by
  simp only [procStep,
    processShift_real_upserted api t z shift st.1 st.2.1 ev cid calls hskip hev hup]

theorem procStep_real_failed (api : GoogleCalendarApi) (t z : String)
    (st : LoopSt) (shift : Shift) (ev : CalendarEventInput) (e : ApiError)
    (calls : List ApiCall)
    (hskip : skipCheck (getRecord st.1 shift.id) shift = false)
    (hev : shiftToCalendarEvent shift t z = some ev)
    (hup : upsertEvent api (generateEventId shift.id) ev = (.error e, calls)) :
    procStep api t z false st shift =
      (st.1, { st.2.1 with errors := st.2.1.errors ++ [syncFailMsg shift.id e.msg] },
        st.2.2 ++ calls) := by
  simp only [procStep,
    processShift_real_failed api t z shift st.1 st.2.1 ev e calls hskip hev hup]

theorem procStep_dry_mappable (api : GoogleCalendarApi) (t z : String)
    (st : LoopSt) (shift : Shift) (ev : CalendarEventInput)
    (hskip : skipCheck (getRecord st.1 shift.id) shift = false)
    (hev : shiftToCalendarEvent shift t z = some ev) :
    procStep api t z true st shift =
      (st.1,
        (if (getRecord st.1 shift.id).isSome then { st.2.1 with updated := st.2.1.updated + 1 }
         else { st.2.1 with created := st.2.1.created + 1 }),
        st.2.2) := by
  simp only [procStep, processShift_dry_mappable api t z shift st.1 st.2.1 ev hskip hev]
  simp

theorem delStep_current (api : GoogleCalendarApi) (dry : Bool)
    (currentIds : List String) (st : LoopSt) (id : String)
    (h : currentIds.contains id = true) :
    delStep api dry currentIds st id = st := by
  simp only [delStep]
  rw [if_pos h]

theorem delStep_noRecord (api : GoogleCalendarApi) (dry : Bool)
    (currentIds : List String) (st : LoopSt) (id : String)
    (h : currentIds.contains id = false)
    (hrec : getRecord st.1 id = none) :
    delStep api dry currentIds st id = st := by
  simp only [delStep, deleteShift, hrec]
  rw [if_neg (by rw [h]; simp)]
  simp

theorem delStep_real_deleted (api : GoogleCalendarApi)
    (currentIds : List String) (st : LoopSt) (id : String) (rec : SyncRecord)
    (calls : List ApiCall)
    (h : currentIds.contains id = false)
    (hrec : getRecord st.1 id = some rec)
    (hdel : deleteEvent api rec.calendarEventId = (.ok (), calls)) :
    delStep api false currentIds st id =
      (deleteRecord st.1 id, { st.2.1 with deleted := st.2.1.deleted + 1 },
        st.2.2 ++ calls) := by
  simp only [delStep, deleteShift, hrec]
  rw [if_neg (by rw [h]; simp)]
  simp only [hdel]
  simp

theorem delStep_real_failed (api : GoogleCalendarApi)
    (currentIds : List String) (st : LoopSt) (id : String) (rec : SyncRecord)
    (e : ApiError) (calls : List ApiCall)
    (h : currentIds.contains id = false)
    (hrec : getRecord st.1 id = some rec)
    (hdel : deleteEvent api rec.calendarEventId = (.error e, calls)) :
    delStep api false currentIds st id =
      (st.1, { st.2.1 with errors := st.2.1.errors ++ [deleteFailMsg id e.msg] },
        st.2.2 ++ calls) := by
  simp only [delStep, deleteShift, hrec]
  rw [if_neg (by rw [h]; simp)]
  simp only [hdel]
  simp

theorem delStep_dry (api : GoogleCalendarApi)
    (currentIds : List String) (st : LoopSt) (id : String) (rec : SyncRecord)
    (h : currentIds.contains id = false)
    (hrec : getRecord st.1 id = some rec) :
    delStep api true currentIds st id =
      (st.1, { st.2.1 with deleted := st.2.1.deleted + 1 }, st.2.2) := by
  simp only [delStep, deleteShift, hrec]
  rw [if_neg (by rw [h]; simp)]
  simp

/-! ## Master characterization of the per-shift loop (real run) -/

theorem phase1_master (api : GoogleCalendarApi) (t z : String)
    (shifts : List Shift) (st : LoopSt)
    (hids : (shifts.map (fun s => s.id)).Nodup) :
    ((shifts.foldl (procStep api t z false) st).2.1.created
        = st.2.1.created + shifts.countP
            (fun s => outcomeCreates (processOutcome api t z (getRecord st.1 s.id) s)))
    ∧ ((shifts.foldl (procStep api t z false) st).2.1.updated
        = st.2.1.updated + shifts.countP
            (fun s => outcomeUpdates (processOutcome api t z (getRecord st.1 s.id) s)))
    ∧ ((shifts.foldl (procStep api t z false) st).2.1.skipped
        = st.2.1.skipped + shifts.countP
            (fun s => outcomeSkips (processOutcome api t z (getRecord st.1 s.id) s)))
    ∧ ((shifts.foldl (procStep api t z false) st).2.1.deleted = st.2.1.deleted)
    ∧ ((shifts.foldl (procStep api t z false) st).2.1.errors
        = st.2.1.errors ++ shifts.filterMap
            (fun s => itemError api t z (getRecord st.1 s.id) s))
    ∧ (∀ id, id ∉ shifts.map (fun s => s.id) →
        getRecord (shifts.foldl (procStep api t z false) st).1 id = getRecord st.1 id)
    ∧ (∀ s ∈ shifts, ∀ cid w,
        processOutcome api t z (getRecord st.1 s.id) s = .upserted cid w →
        getRecord (shifts.foldl (procStep api t z false) st).1 s.id
          = some { calendarEventId := cid, lastModified := s.lastModifiedDateTime })
    ∧ (∀ s ∈ shifts,
        (∀ cid w, processOutcome api t z (getRecord st.1 s.id) s ≠ .upserted cid w) →
        getRecord (shifts.foldl (procStep api t z false) st).1 s.id = getRecord st.1 s.id)
    ∧ (∃ ext, getAllShiftIds (shifts.foldl (procStep api t z false) st).1
          = getAllShiftIds st.1 ++ ext ∧ ∀ id ∈ ext, id ∈ shifts.map (fun s => s.id))
    ∧ ((getAllShiftIds st.1).Nodup →
        (getAllShiftIds (shifts.foldl (procStep api t z false) st).1).Nodup)
    ∧ ((∀ s ∈ shifts,
          outcomeSkips (processOutcome api t z (getRecord st.1 s.id) s) = true) →
        (shifts.foldl (procStep api t z false) st).1 = st.1
          ∧ (shifts.foldl (procStep api t z false) st).2.2 = st.2.2) := by
  induction shifts generalizing st with
  | nil =>
    refine ⟨by simp, by simp, by simp, rfl, by simp, fun id _ => rfl,
      fun s hs => absurd hs (List.not_mem_nil s),
      fun s hs => absurd hs (List.not_mem_nil s),
      ⟨[], by simp, by simp⟩, fun h => h, fun _ => ⟨rfl, rfl⟩⟩
  | cons s rest ih =>
    have hid_notin : s.id ∉ rest.map (fun u => u.id) := by
      have := hids
      rw [List.map_cons, List.nodup_cons] at this
      exact this.1
    have hrest_nodup : (rest.map (fun u => u.id)).Nodup := by
      have := hids
      rw [List.map_cons, List.nodup_cons] at this
      exact this.2
    have hne_of_mem : ∀ u ∈ rest, u.id ≠ s.id := by
      intro u hu hc
      exact hid_notin (hc ▸ List.mem_map_of_mem (fun v => v.id) hu)
    rw [List.foldl_cons]
    rcases hout : processOutcome api t z (getRecord st.1 s.id) s with _ | _ | ⟨cid, w⟩ | m
    case skippedUnchanged =>
      have hskip := skipCheck_of_unchanged api t z (getRecord st.1 s.id) s hout
      rw [procStep_skipresult api t z false st s hskip]
      obtain ⟨ihc, ihu, ihs, ihd, ihe, ihframe, ihok, ihnok, ihext, ihnd, ihallskip⟩ :=
        ih (st.1, { st.2.1 with skipped := st.2.1.skipped + 1 }, st.2.2) hrest_nodup
      refine ⟨?_, ?_, ?_, ?_, ?_, ?_, ?_, ?_, ?_, ?_, ?_⟩
      · rw [ihc, List.countP_cons]; simp [hout, outcomeCreates]
      · rw [ihu, List.countP_cons]; simp [hout, outcomeUpdates]
      · rw [ihs, List.countP_cons]; simp [hout, outcomeSkips]; omega
      · rw [ihd]
      · rw [ihe, List.filterMap_cons]
        have : itemError api t z (getRecord st.1 s.id) s = none := by
          unfold itemError; rw [hout]
        rw [this]
      · intro id hid
        exact ihframe id (fun hc => hid (List.mem_cons_of_mem _ hc))
      · intro u hu cid w hupo
        rcases List.mem_cons.mp hu with rfl | hu2
        · rw [hout] at hupo; exact absurd hupo (by simp)
        · exact ihok u hu2 cid w hupo
      · intro u hu hno
        rcases List.mem_cons.mp hu with rfl | hu2
        · exact ihframe u.id hid_notin
        · exact ihnok u hu2 hno
      · obtain ⟨ext, hext, hsub⟩ := ihext
        exact ⟨ext, hext, fun id hid => List.mem_cons_of_mem _ (hsub id hid)⟩
      · exact ihnd
      · intro hall
        exact ihallskip (fun u hu => hall u (List.mem_cons_of_mem _ hu))
    case skippedUnmappable =>
      obtain ⟨hskip, hev⟩ := facts_of_unmappable api t z (getRecord st.1 s.id) s hout
      rw [procStep_unmappable api t z false st s hskip hev]
      obtain ⟨ihc, ihu, ihs, ihd, ihe, ihframe, ihok, ihnok, ihext, ihnd, ihallskip⟩ :=
        ih (st.1, { st.2.1 with skipped := st.2.1.skipped + 1 }, st.2.2) hrest_nodup
      refine ⟨?_, ?_, ?_, ?_, ?_, ?_, ?_, ?_, ?_, ?_, ?_⟩
      · rw [ihc, List.countP_cons]; simp [hout, outcomeCreates]
      · rw [ihu, List.countP_cons]; simp [hout, outcomeUpdates]
      · rw [ihs, List.countP_cons]; simp [hout, outcomeSkips]; omega
      · rw [ihd]
      · rw [ihe, List.filterMap_cons]
        have : itemError api t z (getRecord st.1 s.id) s = none := by
          unfold itemError; rw [hout]
        rw [this]
      · intro id hid
        exact ihframe id (fun hc => hid (List.mem_cons_of_mem _ hc))
      · intro u hu cid w hupo
        rcases List.mem_cons.mp hu with rfl | hu2
        · rw [hout] at hupo; exact absurd hupo (by simp)
        · exact ihok u hu2 cid w hupo
      · intro u hu hno
        rcases List.mem_cons.mp hu with rfl | hu2
        · exact ihframe u.id hid_notin
        · exact ihnok u hu2 hno
      · obtain ⟨ext, hext, hsub⟩ := ihext
        exact ⟨ext, hext, fun id hid => List.mem_cons_of_mem _ (hsub id hid)⟩
      · exact ihnd
      · intro hall
        exact ihallskip (fun u hu => hall u (List.mem_cons_of_mem _ hu))
    case upserted =>
      obtain ⟨hskip, hw, ev, calls, hev, hup⟩ :=
        facts_of_upserted api t z (getRecord st.1 s.id) s cid w hout
      rw [procStep_real_upserted api t z st s ev cid calls hskip hev hup]
      have hrecframe : ∀ u ∈ rest,
          getRecord (setRecord st.1 s.id
            { calendarEventId := cid, lastModified := s.lastModifiedDateTime }) u.id
          = getRecord st.1 u.id := by
        intro u hu
        exact getRecord_setRecord_ne st.1 s.id _ u.id (hne_of_mem u hu)
      obtain ⟨ihc, ihu, ihs, ihd, ihe, ihframe, ihok, ihnok, ihext, ihnd, ihallskip⟩ :=
        ih (setRecord st.1 s.id
              { calendarEventId := cid, lastModified := s.lastModifiedDateTime },
            (if (getRecord st.1 s.id).isSome then { st.2.1 with updated := st.2.1.updated + 1 }
             else { st.2.1 with created := st.2.1.created + 1 }),
            st.2.2 ++ calls) hrest_nodup
      have hcountc : rest.countP (fun u => outcomeCreates (processOutcome api t z
            (getRecord (setRecord st.1 s.id
              { calendarEventId := cid, lastModified := s.lastModifiedDateTime }) u.id) u))
          = rest.countP (fun u => outcomeCreates (processOutcome api t z
              (getRecord st.1 u.id) u)) :=
        List.countP_congr (fun u hu => by rw [hrecframe u hu])
      have hcountu : rest.countP (fun u => outcomeUpdates (processOutcome api t z
            (getRecord (setRecord st.1 s.id
              { calendarEventId := cid, lastModified := s.lastModifiedDateTime }) u.id) u))
          = rest.countP (fun u => outcomeUpdates (processOutcome api t z
              (getRecord st.1 u.id) u)) :=
        List.countP_congr (fun u hu => by rw [hrecframe u hu])
      have hcounts : rest.countP (fun u => outcomeSkips (processOutcome api t z
            (getRecord (setRecord st.1 s.id
              { calendarEventId := cid, lastModified := s.lastModifiedDateTime }) u.id) u))
          = rest.countP (fun u => outcomeSkips (processOutcome api t z
              (getRecord st.1 u.id) u)) :=
        List.countP_congr (fun u hu => by rw [hrecframe u hu])
      have herrmap : rest.filterMap (fun u => itemError api t z
            (getRecord (setRecord st.1 s.id
              { calendarEventId := cid, lastModified := s.lastModifiedDateTime }) u.id) u)
          = rest.filterMap (fun u => itemError api t z (getRecord st.1 u.id) u) :=
        List.filterMap_congr (fun u hu => by rw [hrecframe u hu])
      refine ⟨?_, ?_, ?_, ?_, ?_, ?_, ?_, ?_, ?_, ?_, ?_⟩
      · rw [ihc, hcountc, List.countP_cons]
        rw [hout]
        rcases hr : (getRecord st.1 s.id).isSome with _ | _
        · rw [hr] at hw
          simp [hw, outcomeCreates]
          omega
        · rw [hr] at hw
          simp [hw, outcomeCreates]
      · rw [ihu, hcountu, List.countP_cons]
        rw [hout]
        rcases hr : (getRecord st.1 s.id).isSome with _ | _
        · rw [hr] at hw
          simp [hw, outcomeUpdates]
        · rw [hr] at hw
          simp [hw, outcomeUpdates]
          omega
      · rw [ihs, hcounts, List.countP_cons]
        rw [hout]
        have : outcomeSkips (ItemOutcome.upserted cid w) = false := rfl
        rcases hr : (getRecord st.1 s.id).isSome with _ | _ <;> simp [this]
      · rw [ihd]
        rcases hr : (getRecord st.1 s.id).isSome with _ | _ <;> simp
      · rw [ihe, herrmap, List.filterMap_cons]
        have : itemError api t z (getRecord st.1 s.id) s = none := by
          unfold itemError; rw [hout]
        rw [this]
        rcases hr : (getRecord st.1 s.id).isSome with _ | _ <;> simp
      · intro id hid
        have hid_ne : id ≠ s.id := fun hc => hid (by simp [hc])
        rw [ihframe id (fun hc => hid (List.mem_cons_of_mem _ hc))]
        exact getRecord_setRecord_ne st.1 s.id _ id hid_ne
      · intro u hu cid2 w2 hupo
        rcases List.mem_cons.mp hu with rfl | hu2
        · rw [hout] at hupo
          obtain ⟨h1, h2⟩ := ItemOutcome.upserted.inj hupo
          subst h1
          rw [ihframe u.id hid_notin]
          exact getRecord_setRecord_self st.1 u.id _
        · rw [ihok u hu2 cid2 w2 (by rw [hrecframe u hu2]; exact hupo)]
      · intro u hu hno
        rcases List.mem_cons.mp hu with rfl | hu2
        · exact absurd hout (hno cid w)
        · rw [ihnok u hu2 (fun cid2 w2 => by rw [hrecframe u hu2]; exact hno cid2 w2)]
          exact hrecframe u hu2
      · obtain ⟨ext, hext, hsub⟩ := ihext
        rw [keys_setRecord] at hext
        by_cases hmem : s.id ∈ getAllShiftIds st.1
        · rw [if_pos hmem] at hext
          exact ⟨ext, hext, fun id hid => List.mem_cons_of_mem _ (hsub id hid)⟩
        · rw [if_neg hmem] at hext
          refine ⟨s.id :: ext, by rw [hext, List.append_assoc]; rfl, ?_⟩
          intro id hid
          rcases List.mem_cons.mp hid with rfl | hid2
          · exact List.mem_cons_self _ _
          · exact List.mem_cons_of_mem _ (hsub id hid2)
      · intro hnd
        exact ihnd (keysNodup_setRecord st.1 s.id _ hnd)
      · intro hall
        have := hall s (List.mem_cons_self s rest)
        rw [hout] at this
        exact absurd this (by simp [outcomeSkips])
    case failed =>
      obtain ⟨hskip, ev, e, calls, hev, hup, hmsg⟩ :=
        facts_of_failed api t z (getRecord st.1 s.id) s m hout
      rw [procStep_real_failed api t z st s ev e calls hskip hev hup]
      obtain ⟨ihc, ihu, ihs, ihd, ihe, ihframe, ihok, ihnok, ihext, ihnd, ihallskip⟩ :=
        ih (st.1,
            { st.2.1 with errors := st.2.1.errors ++ [syncFailMsg s.id e.msg] },
            st.2.2 ++ calls) hrest_nodup
      refine ⟨?_, ?_, ?_, ?_, ?_, ?_, ?_, ?_, ?_, ?_, ?_⟩
      · rw [ihc, List.countP_cons]; simp [hout, outcomeCreates]
      · rw [ihu, List.countP_cons]; simp [hout, outcomeUpdates]
      · rw [ihs, List.countP_cons]; simp [hout, outcomeSkips]
      · rw [ihd]
      · rw [ihe, List.filterMap_cons]
        have : itemError api t z (getRecord st.1 s.id) s = some (syncFailMsg s.id m) := by
          unfold itemError; rw [hout]
        rw [this, hmsg, List.append_assoc]
        rfl
      · intro id hid
        exact ihframe id (fun hc => hid (List.mem_cons_of_mem _ hc))
      · intro u hu cid w hupo
        rcases List.mem_cons.mp hu with rfl | hu2
        · rw [hout] at hupo; exact absurd hupo (by simp)
        · exact ihok u hu2 cid w hupo
      · intro u hu hno
        rcases List.mem_cons.mp hu with rfl | hu2
        · exact ihframe u.id hid_notin
        · exact ihnok u hu2 hno
      · obtain ⟨ext, hext, hsub⟩ := ihext
        exact ⟨ext, hext, fun id hid => List.mem_cons_of_mem _ (hsub id hid)⟩
      · exact ihnd
      · intro hall
        have := hall s (List.mem_cons_self s rest)
        rw [hout] at this
        exact absurd this (by simp [outcomeSkips])

/-! ## Master characterization of the deletion sweep (real run) -/

theorem phase2_master (api : GoogleCalendarApi) (currentIds : List String)
    (ids : List String) (st : LoopSt) (hnd : ids.Nodup) :
    ((ids.foldl (delStep api false currentIds) st).2.1.created = st.2.1.created)
    ∧ ((ids.foldl (delStep api false currentIds) st).2.1.updated = st.2.1.updated)
    ∧ ((ids.foldl (delStep api false currentIds) st).2.1.skipped = st.2.1.skipped)
    ∧ ((ids.foldl (delStep api false currentIds) st).2.1.deleted
        = st.2.1.deleted + ids.countP
            (fun id => !currentIds.contains id
              && (delOutcome api (getRecord st.1 id) == DelOutcome.deleted)))
    ∧ ((ids.foldl (delStep api false currentIds) st).2.1.errors
        = st.2.1.errors ++ (ids.filter (fun id => !currentIds.contains id)).filterMap
            (fun id => delError api (getRecord st.1 id) id))
    ∧ (∀ id2, id2 ∉ ids →
        getRecord (ids.foldl (delStep api false currentIds) st).1 id2 = getRecord st.1 id2)
    ∧ (∀ id2 ∈ currentIds,
        getRecord (ids.foldl (delStep api false currentIds) st).1 id2 = getRecord st.1 id2)
    ∧ (∀ id2 ∈ ids, id2 ∉ currentIds →
        delOutcome api (getRecord st.1 id2) = .deleted →
        getRecord (ids.foldl (delStep api false currentIds) st).1 id2 = none)
    ∧ (∀ id2, getRecord st.1 id2 = none →
        getRecord (ids.foldl (delStep api false currentIds) st).1 id2 = none)
    ∧ ((∀ id2 ∈ ids, id2 ∈ currentIds) →
        ids.foldl (delStep api false currentIds) st = st) := by
  induction ids generalizing st with
  | nil =>
    exact ⟨rfl, rfl, rfl, by simp, by simp, fun id2 _ => rfl, fun id2 _ => rfl,
      fun id2 h2 => absurd h2 (List.not_mem_nil id2), fun id2 h2 => h2, fun _ => rfl⟩
  | cons id0 rest ih =>
    have hnotin : id0 ∉ rest := (List.nodup_cons.mp hnd).1
    have hrest_nodup : rest.Nodup := (List.nodup_cons.mp hnd).2
    rw [List.foldl_cons]
    rcases hc : currentIds.contains id0 with _ | _
    case false =>
      have hc_notmem : id0 ∉ currentIds := by
        intro hm
        have h2 : currentIds.contains id0 = true := List.elem_iff.mpr hm
        rw [h2] at hc
        exact Bool.noConfusion hc
      cases hrec : getRecord st.1 id0 with
      | none =>
        rw [delStep_noRecord api false currentIds st id0 hc hrec]
        obtain ⟨ihc, ihu, ihs, ihd, ihe, ihframe, ihcur, ihdel, ihnone, ihid⟩ :=
          ih st hrest_nodup
        refine ⟨ihc, ihu, ihs, ?_, ?_, ?_, ihcur, ?_, ihnone, ?_⟩
        · rw [ihd, List.countP_cons]
          simp [hc, hrec, delOutcome]
        · rw [ihe, List.filter_cons]
          rw [if_pos (by rw [hc]; rfl)]
          rw [List.filterMap_cons]
          have : delError api (getRecord st.1 id0) id0 = none := by
            rw [hrec]; rfl
          rw [this]
        · intro id2 hid2
          exact ihframe id2 (fun hm => hid2 (List.mem_cons_of_mem _ hm))
        · intro id2 hid2 hnc hdo
          rcases List.mem_cons.mp hid2 with rfl | hm
          · rw [hrec] at hdo
            exact absurd hdo (by simp [delOutcome])
          · exact ihdel id2 hm hnc hdo
        · intro hall
          exact absurd (hall id0 (List.mem_cons_self id0 rest)) hc_notmem
      | some rec =>
        rcases hdo : delOutcome api (some rec) with _ | _ | msg
        case noRecord =>
          exact absurd ((delOutcome_noRecord_iff api (some rec)).mp hdo)
            (by simp)
        case deleted =>
          obtain ⟨calls, hdel⟩ := facts_of_delDeleted api rec hdo
          rw [delStep_real_deleted api currentIds st id0 rec calls hc hrec hdel]
          have hrecframe : ∀ id2, id2 ≠ id0 →
              getRecord (deleteRecord st.1 id0) id2 = getRecord st.1 id2 :=
            fun id2 h2 => getRecord_deleteRecord_ne st.1 id0 id2 h2
          obtain ⟨ihc, ihu, ihs, ihd, ihe, ihframe, ihcur, ihdel, ihnone, ihid⟩ :=
            ih (deleteRecord st.1 id0,
                { st.2.1 with deleted := st.2.1.deleted + 1 }, st.2.2 ++ calls)
              hrest_nodup
          have hcount : rest.countP (fun id => !currentIds.contains id
                && (delOutcome api (getRecord (deleteRecord st.1 id0) id)
                    == DelOutcome.deleted))
              = rest.countP (fun id => !currentIds.contains id
                && (delOutcome api (getRecord st.1 id) == DelOutcome.deleted)) := by
            refine List.countP_congr ?_
            intro id2 hm
            rw [hrecframe id2 (fun hc2 => hnotin (hc2 ▸ hm))]
          have herr : (rest.filter (fun id => !currentIds.contains id)).filterMap
                (fun id => delError api (getRecord (deleteRecord st.1 id0) id) id)
              = (rest.filter (fun id => !currentIds.contains id)).filterMap
                (fun id => delError api (getRecord st.1 id) id) := by
            refine List.filterMap_congr ?_
            intro id2 hm
            have hm2 := List.mem_of_mem_filter hm
            rw [hrecframe id2 (fun hc2 => hnotin (hc2 ▸ hm2))]
          refine ⟨ihc, ihu, ihs, ?_, ?_, ?_, ?_, ?_, ?_, ?_⟩
          · rw [ihd, hcount, List.countP_cons]
            simp only [hc, hrec, hdo]
            simp
            omega
          · rw [ihe, herr, List.filter_cons]
            rw [if_pos (by rw [hc]; rfl)]
            rw [List.filterMap_cons]
            have : delError api (getRecord st.1 id0) id0 = none := by
              rw [hrec]
              unfold delError
              rw [hdo]
            rw [this]
          · intro id2 hid2
            have hne : id2 ≠ id0 := fun hc2 => hid2 (hc2 ▸ List.mem_cons_self id0 rest)
            rw [ihframe id2 (fun hm => hid2 (List.mem_cons_of_mem _ hm))]
            exact hrecframe id2 hne
          · intro id2 hid2
            have hne : id2 ≠ id0 := fun hc2 => hc_notmem (hc2 ▸ hid2)
            rw [ihcur id2 hid2]
            exact hrecframe id2 hne
          · intro id2 hid2 hnc hdo2
            rcases List.mem_cons.mp hid2 with rfl | hm
            · rw [ihframe id2 hnotin]
              exact getRecord_deleteRecord_self st.1 id2
            · refine ihdel id2 hm hnc ?_
              rw [hrecframe id2 (fun hc2 => hnotin (hc2 ▸ hm))]
              exact hdo2
          · intro id2 hn
            refine ihnone id2 ?_
            by_cases hne : id2 = id0
            · subst hne
              exact getRecord_deleteRecord_self st.1 id2
            · rw [hrecframe id2 hne]
              exact hn
          · intro hall
            exact absurd (hall id0 (List.mem_cons_self id0 rest)) hc_notmem
        case failed =>
          obtain ⟨e, calls, hdel, hmsg⟩ := facts_of_delFailed api rec msg hdo
          rw [delStep_real_failed api currentIds st id0 rec e calls hc hrec hdel]
          obtain ⟨ihc, ihu, ihs, ihd, ihe, ihframe, ihcur, ihdel2, ihnone, ihid⟩ :=
            ih (st.1,
                { st.2.1 with errors := st.2.1.errors ++ [deleteFailMsg id0 e.msg] },
                st.2.2 ++ calls) hrest_nodup
          refine ⟨ihc, ihu, ihs, ?_, ?_, ?_, ihcur, ?_, ihnone, ?_⟩
          · rw [ihd, List.countP_cons]
            simp only [hc, hrec, hdo]
            simp
          · rw [ihe, List.filter_cons]
            rw [if_pos (by rw [hc]; rfl)]
            rw [List.filterMap_cons]
            have : delError api (getRecord st.1 id0) id0
                = some (deleteFailMsg id0 msg) := by
              rw [hrec]
              unfold delError
              rw [hdo]
            rw [this, hmsg, List.append_assoc]
            rfl
          · intro id2 hid2
            exact ihframe id2 (fun hm => hid2 (List.mem_cons_of_mem _ hm))
          · intro id2 hid2 hnc hdo2
            rcases List.mem_cons.mp hid2 with rfl | hm
            · rw [hrec] at hdo2
              rw [hdo2] at hdo
              exact absurd hdo (by simp)
            · exact ihdel2 id2 hm hnc hdo2
          · intro hall
            exact absurd (hall id0 (List.mem_cons_self id0 rest)) hc_notmem
    case true =>
      rw [delStep_current api false currentIds st id0 hc]
      obtain ⟨ihc, ihu, ihs, ihd, ihe, ihframe, ihcur, ihdel, ihnone, ihid⟩ :=
        ih st hrest_nodup
      refine ⟨ihc, ihu, ihs, ?_, ?_, ?_, ihcur, ?_, ihnone, ?_⟩
      · rw [ihd, List.countP_cons]
        simp [hc]
        exact fun hm _ => (hm (List.elem_iff.mp hc)).elim
      · rw [ihe, List.filter_cons]
        rw [if_neg (by rw [hc]; simp)]
      · intro id2 hid2
        exact ihframe id2 (fun hm => hid2 (List.mem_cons_of_mem _ hm))
      · intro id2 hid2 hnc hdo
        rcases List.mem_cons.mp hid2 with rfl | hm
        · exact absurd (List.elem_iff.mp hc) hnc
        · exact ihdel id2 hm hnc hdo
      · intro hall
        exact ihid (fun id2 hm => hall id2 (List.mem_cons_of_mem _ hm))

/-! ## Classification facts and dry-run masters -/

theorem classify_skip_cases (t z : String) (r : Option SyncRecord) (s : Shift)
    (h : classify t z r s = .skip) :
    skipCheck r s = true ∨ (skipCheck r s = false ∧ shiftToCalendarEvent s t z = none) := by
  unfold classify at h
  split at h
  · left; assumption
  · next hskip =>
    split at h
    · next hev => exact Or.inr ⟨by simpa using hskip, hev⟩
    · split at h <;> simp at h

theorem classify_create_facts (t z : String) (r : Option SyncRecord) (s : Shift)
    (h : classify t z r s = .create) :
    skipCheck r s = false ∧ (∃ ev, shiftToCalendarEvent s t z = some ev)
      ∧ r.isSome = false := by
  unfold classify at h
  split at h
  · simp at h
  · next hskip =>
    refine ⟨by simpa using hskip, ?_⟩
    split at h
    · simp at h
    · next ev hev =>
      split at h
      · simp at h
      · next hr => exact ⟨⟨ev, hev⟩, by simpa using hr⟩

theorem classify_update_facts (t z : String) (r : Option SyncRecord) (s : Shift)
    (h : classify t z r s = .update) :
    skipCheck r s = false ∧ (∃ ev, shiftToCalendarEvent s t z = some ev)
      ∧ r.isSome = true := by
  unfold classify at h
  split at h
  · simp at h
  · next hskip =>
    refine ⟨by simpa using hskip, ?_⟩
    split at h
    · simp at h
    · next ev hev =>
      split at h
      · next hr => exact ⟨⟨ev, hev⟩, hr⟩
      · simp at h

theorem phase1_dry_master (api : GoogleCalendarApi) (t z : String)
    (shifts : List Shift) (st : LoopSt) :
    ((shifts.foldl (procStep api t z true) st).1 = st.1)
    ∧ ((shifts.foldl (procStep api t z true) st).2.2 = st.2.2)
    ∧ ((shifts.foldl (procStep api t z true) st).2.1.errors = st.2.1.errors)
    ∧ ((shifts.foldl (procStep api t z true) st).2.1.deleted = st.2.1.deleted)
    ∧ ((shifts.foldl (procStep api t z true) st).2.1.created
        = st.2.1.created + shifts.countP
            (fun s => classify t z (getRecord st.1 s.id) s == Class.create))
    ∧ ((shifts.foldl (procStep api t z true) st).2.1.updated
        = st.2.1.updated + shifts.countP
            (fun s => classify t z (getRecord st.1 s.id) s == Class.update))
    ∧ ((shifts.foldl (procStep api t z true) st).2.1.skipped
        = st.2.1.skipped + shifts.countP
            (fun s => classify t z (getRecord st.1 s.id) s == Class.skip)) := by
  induction shifts generalizing st with
  | nil => exact ⟨rfl, rfl, rfl, rfl, by simp, by simp, by simp⟩
  | cons s rest ih =>
    rw [List.foldl_cons]
    rcases hcl : classify t z (getRecord st.1 s.id) s with _ | _ | _
    case skip =>
      have hstep : procStep api t z true st s
          = (st.1, { st.2.1 with skipped := st.2.1.skipped + 1 }, st.2.2) := by
        rcases classify_skip_cases t z (getRecord st.1 s.id) s hcl with hs | ⟨hs, hev⟩
        · exact procStep_skipresult api t z true st s hs
        · exact procStep_unmappable api t z true st s hs hev
      rw [hstep]
      obtain ⟨ih1, ih2, ih3, ih4, ih5, ih6, ih7⟩ :=
        ih (st.1, { st.2.1 with skipped := st.2.1.skipped + 1 }, st.2.2)
      refine ⟨ih1, ih2, ih3, ih4, ?_, ?_, ?_⟩
      · rw [ih5, List.countP_cons]; simp [hcl]
      · rw [ih6, List.countP_cons]; simp [hcl]
      · rw [ih7, List.countP_cons]; simp [hcl]; omega
    case create =>
      obtain ⟨hskip, ⟨ev, hev⟩, hr⟩ := classify_create_facts t z (getRecord st.1 s.id) s hcl
      have hstep : procStep api t z true st s
          = (st.1, { st.2.1 with created := st.2.1.created + 1 }, st.2.2) := by
        rw [procStep_dry_mappable api t z st s ev hskip hev, hr]
        simp
      rw [hstep]
      obtain ⟨ih1, ih2, ih3, ih4, ih5, ih6, ih7⟩ :=
        ih (st.1, { st.2.1 with created := st.2.1.created + 1 }, st.2.2)
      refine ⟨ih1, ih2, ih3, ih4, ?_, ?_, ?_⟩
      · rw [ih5, List.countP_cons]; simp [hcl]; omega
      · rw [ih6, List.countP_cons]; simp [hcl]
      · rw [ih7, List.countP_cons]; simp [hcl]
    case update =>
      obtain ⟨hskip, ⟨ev, hev⟩, hr⟩ := classify_update_facts t z (getRecord st.1 s.id) s hcl
      have hstep : procStep api t z true st s
          = (st.1, { st.2.1 with updated := st.2.1.updated + 1 }, st.2.2) := by
        rw [procStep_dry_mappable api t z st s ev hskip hev, hr]
        simp
      rw [hstep]
      obtain ⟨ih1, ih2, ih3, ih4, ih5, ih6, ih7⟩ :=
        ih (st.1, { st.2.1 with updated := st.2.1.updated + 1 }, st.2.2)
      refine ⟨ih1, ih2, ih3, ih4, ?_, ?_, ?_⟩
      · rw [ih5, List.countP_cons]; simp [hcl]
      · rw [ih6, List.countP_cons]; simp [hcl]; omega
      · rw [ih7, List.countP_cons]; simp [hcl]

theorem phase2_dry_master (api : GoogleCalendarApi) (currentIds : List String)
    (ids : List String) (st : LoopSt) :
    ((ids.foldl (delStep api true currentIds) st).1 = st.1)
    ∧ ((ids.foldl (delStep api true currentIds) st).2.2 = st.2.2)
    ∧ ((ids.foldl (delStep api true currentIds) st).2.1.errors = st.2.1.errors)
    ∧ ((ids.foldl (delStep api true currentIds) st).2.1.created = st.2.1.created)
    ∧ ((ids.foldl (delStep api true currentIds) st).2.1.updated = st.2.1.updated)
    ∧ ((ids.foldl (delStep api true currentIds) st).2.1.skipped = st.2.1.skipped)
    ∧ ((ids.foldl (delStep api true currentIds) st).2.1.deleted
        = st.2.1.deleted + ids.countP
            (fun id => !currentIds.contains id && (getRecord st.1 id).isSome)) := by
  induction ids generalizing st with
  | nil => exact ⟨rfl, rfl, rfl, rfl, rfl, rfl, by simp⟩
  | cons id0 rest ih =>
    rw [List.foldl_cons]
    rcases hc : currentIds.contains id0 with _ | _
    case true =>
      rw [delStep_current api true currentIds st id0 hc]
      obtain ⟨ih1, ih2, ih3, ih4, ih5, ih6, ih7⟩ := ih st
      refine ⟨ih1, ih2, ih3, ih4, ih5, ih6, ?_⟩
      rw [ih7, List.countP_cons, hc]
      simp
    case false =>
      cases hrec : getRecord st.1 id0 with
      | none =>
        rw [delStep_noRecord api true currentIds st id0 hc hrec]
        obtain ⟨ih1, ih2, ih3, ih4, ih5, ih6, ih7⟩ := ih st
        refine ⟨ih1, ih2, ih3, ih4, ih5, ih6, ?_⟩
        rw [ih7, List.countP_cons, hc, hrec]
        simp
      | some rec =>
        rw [delStep_dry api currentIds st id0 rec hc hrec]
        obtain ⟨ih1, ih2, ih3, ih4, ih5, ih6, ih7⟩ :=
          ih (st.1, { st.2.1 with deleted := st.2.1.deleted + 1 }, st.2.2)
        refine ⟨ih1, ih2, ih3, ih4, ih5, ih6, ?_⟩
        rw [ih7, List.countP_cons, hc, hrec]
        dsimp only
        simp
        omega

/-! ## Glue lemmas -/

theorem mainExitCode_one_iff (r : SyncResult) : mainExitCode r = 1 ↔ r.errors ≠ [] := by
  unfold mainExitCode
  by_cases h : r.errors = []
  · simp [h]
  · simp [h, List.length_pos.mpr h]

theorem phase2_identity (api : GoogleCalendarApi) (dry : Bool) (currentIds : List String)
    (ids : List String) (st : LoopSt) (h : ∀ id ∈ ids, id ∈ currentIds) :
    ids.foldl (delStep api dry currentIds) st = st := by
  induction ids generalizing st with
  | nil => rfl
  | cons id0 rest ih =>
    rw [List.foldl_cons,
      delStep_current api dry currentIds st id0
        (List.elem_iff.mpr (h id0 (List.mem_cons_self id0 rest)))]
    exact ih st (fun id hm => h id (List.mem_cons_of_mem _ hm))

theorem outcome_of_skipCheck (api : GoogleCalendarApi) (t z : String)
    (r : Option SyncRecord) (s : Shift) (h : skipCheck r s = true) :
    processOutcome api t z r s = .skippedUnchanged := by
  unfold processOutcome
  rw [if_pos h]

theorem outcomeSkips_of_unmappable_event (api : GoogleCalendarApi) (t z : String)
    (r : Option SyncRecord) (s : Shift) (hev : shiftToCalendarEvent s t z = none) :
    outcomeSkips (processOutcome api t z r s) = true := by
  unfold processOutcome
  by_cases h : skipCheck r s = true
  · rw [if_pos h]; rfl
  · rw [if_neg (by simp [h])]
    simp only [hev]
    rfl

theorem skipCheck_some_self (s : Shift) (cid : String) (h : s.lastModifiedDateTime ≠ "") :
    skipCheck (some { calendarEventId := cid, lastModified := s.lastModifiedDateTime }) s
      = true := by
  simp [skipCheck, hasShiftChanged_self s h]

theorem creates_false_of_skips (o : ItemOutcome) (h : outcomeSkips o = true) :
    outcomeCreates o = false := by
  cases o <;> simp_all [outcomeSkips, outcomeCreates]

theorem updates_false_of_skips (o : ItemOutcome) (h : outcomeSkips o = true) :
    outcomeUpdates o = false := by
  cases o <;> simp_all [outcomeSkips, outcomeUpdates]

theorem itemError_none_of_skips (api : GoogleCalendarApi) (t z : String)
    (r : Option SyncRecord) (s : Shift)
    (h : outcomeSkips (processOutcome api t z r s) = true) :
    itemError api t z r s = none := by
  unfold itemError
  rcases ho : processOutcome api t z r s with _ | _ | ⟨cid, w⟩ | m <;> try rfl
  rw [ho] at h
  simp [outcomeSkips] at h

theorem not_failed_of_itemError_none (api : GoogleCalendarApi) (t z : String)
    (r : Option SyncRecord) (s : Shift) (h : itemError api t z r s = none) :
    ∀ m, processOutcome api t z r s ≠ .failed m := by
  intro m hc
  unfold itemError at h
  rw [hc] at h
  exact Option.noConfusion h

theorem delOutcome_not_failed_of_delError_none (api : GoogleCalendarApi)
    (r : Option SyncRecord) (id : String) (h : delError api r id = none) :
    ∀ m, delOutcome api r ≠ .failed m := by
  intro m hc
  unfold delError at h
  rw [hc] at h
  exact Option.noConfusion h

theorem outcome_classify_eq (api : GoogleCalendarApi) (t z : String)
    (r : Option SyncRecord) (s : Shift)
    (hfail : ∀ m, processOutcome api t z r s ≠ .failed m) :
    (outcomeCreates (processOutcome api t z r s) = (classify t z r s == Class.create))
    ∧ (outcomeUpdates (processOutcome api t z r s) = (classify t z r s == Class.update))
    ∧ (outcomeSkips (processOutcome api t z r s) = (classify t z r s == Class.skip)) := by
  by_cases hskip : skipCheck r s = true
  · simp [processOutcome, classify, hskip, outcomeCreates, outcomeUpdates, outcomeSkips]
  · cases hev : shiftToCalendarEvent s t z with
    | none =>
      simp [processOutcome, classify, hskip, hev, outcomeCreates, outcomeUpdates,
        outcomeSkips]
    | some ev =>
      cases hup : (upsertEvent api (generateEventId s.id) ev).1 with
      | ok cid =>
        cases hr : r.isSome <;>
          simp [processOutcome, classify, hskip, hev, hup, hr, outcomeCreates,
            outcomeUpdates, outcomeSkips]
      | error e =>
        exact absurd (by simp [processOutcome, hskip, hev, hup]) (hfail e.msg)

theorem delOutcome_deleted_iff_isSome (api : GoogleCalendarApi) (r : Option SyncRecord)
    (hfail : ∀ m, delOutcome api r ≠ .failed m) :
    (delOutcome api r == DelOutcome.deleted) = r.isSome := by
  cases r with
  | none => simp [delOutcome]
  | some rec =>
    cases hdel : (deleteEvent api rec.calendarEventId).1 with
    | ok u => simp [delOutcome, hdel]
    | error e => exact absurd (by simp [delOutcome, hdel]) (hfail e.msg)

theorem getRecord_isSome_iff (recs : Records) (id : String) :
    (getRecord recs id).isSome = true ↔ id ∈ getAllShiftIds recs := by
  rw [Option.isSome_iff_ne_none]
  constructor
  · intro hne
    by_contra hmem
    exact hne ((getRecord_none_iff recs id).mpr hmem)
  · intro hmem hnone
    exact ((getRecord_none_iff recs id).mp hnone) hmem

/-! ## Claim theorems: run-level claims -/

/-- C1: reconciliation is idempotent — after a successful run (no errors)
over a shift set with distinct ids and well-formed (non-empty) modification
stamps, running sync again on the unchanged shift set classifies every
shift as skipped, performs zero creates, updates and deletes, reports no
errors, and makes no calendar API call at all. -/
theorem sync_idempotent (api1 api2 : GoogleCalendarApi) (t z now1 now2 path : String)
    (shifts : List Shift) (state : SyncState)
    (hids : (shifts.map (fun s => s.id)).Nodup)
    (hkeys : (getAllShiftIds state.records).Nodup)
    (hmod : ∀ s ∈ shifts, s.lastModifiedDateTime ≠ "")
    (h1 : (sync api1 t z false shifts state now1 path).result.errors = []) :
    (sync api2 t z false shifts
        (sync api1 t z false shifts state now1 path).state now2 path).result.created = 0
    ∧ (sync api2 t z false shifts
        (sync api1 t z false shifts state now1 path).state now2 path).result.updated = 0
    ∧ (sync api2 t z false shifts
        (sync api1 t z false shifts state now1 path).state now2 path).result.deleted = 0
    ∧ (sync api2 t z false shifts
        (sync api1 t z false shifts state now1 path).state now2 path).result.skipped
        = shifts.length
    ∧ (sync api2 t z false shifts
        (sync api1 t z false shifts state now1 path).state now2 path).result.errors = []
    ∧ (sync api2 t z false shifts
        (sync api1 t z false shifts state now1 path).state now2 path).apiCalls = [] := by
  let currentIds := shifts.map (fun s => s.id)
  let st0 : LoopSt := (state.records, emptyResult, [])
  let st1 := shifts.foldl (procStep api1 t z false) st0
  let ids1 := getAllShiftIds st1.1
  let st2 := ids1.foldl (delStep api1 false currentIds) st1
  have h1b : st2.2.1.errors = [] := h1
  obtain ⟨p1c, p1u, p1s, p1d, p1e, p1frame, p1ok, p1nok, p1ext, p1nd, p1allskip⟩ :=
    phase1_master api1 t z shifts st0 hids
  have hnd1 : ids1.Nodup := p1nd hkeys
  obtain ⟨p2c, p2u, p2s, p2d, p2e, p2frame, p2cur, p2del, p2none, p2id⟩ :=
    phase2_master api1 currentIds ids1 st1 hnd1
  have h0e : st0.2.1.errors = [] := rfl
  have hsplit := List.append_eq_nil.mp (by
    have he2 := p2e
    rw [p1e, h0e, List.nil_append] at he2
    rw [he2] at h1b
    exact h1b)
  have hnofail1 : ∀ s ∈ shifts, ∀ m,
      processOutcome api1 t z (getRecord st0.1 s.id) s ≠ .failed m := by
    intro s hs
    exact not_failed_of_itemError_none api1 t z _ s
      ((List.filterMap_eq_nil_iff.mp hsplit.1) s hs)
  -- every surviving ledger key is a current shift id
  have hsub : ∀ id ∈ getAllShiftIds st2.1, id ∈ currentIds := by
    intro id hmem2
    by_contra hnc
    have hc_false : currentIds.contains id = false := by
      rcases hcc : currentIds.contains id with _ | _
      · rfl
      · exact absurd (List.elem_iff.mp hcc) hnc
    have hnone2 : getRecord st2.1 id = none := by
      by_cases hmem1 : id ∈ ids1
      · cases hx : getRecord st1.1 id with
        | none =>
          exact absurd ((getRecord_none_iff st1.1 id).mp hx) (by simpa using hmem1)
        | some rec =>
          have hfilter_mem : id ∈ ids1.filter (fun i => !currentIds.contains i) :=
            List.mem_filter.mpr ⟨hmem1, by rw [hc_false]; rfl⟩
          have hde : delError api1 (getRecord st1.1 id) id = none :=
            (List.filterMap_eq_nil_iff.mp hsplit.2) id hfilter_mem
          have hnotfailed := delOutcome_not_failed_of_delError_none api1 _ id hde
          rcases hdo : delOutcome api1 (getRecord st1.1 id) with _ | _ | m
          · rw [hx] at hdo
            exact absurd ((delOutcome_noRecord_iff api1 (some rec)).mp hdo) (by simp)
          · exact p2del id hmem1 hnc hdo
          · exact absurd hdo (hnotfailed m)
      · exact p2none id ((getRecord_none_iff st1.1 id).mpr hmem1)
    exact ((getRecord_none_iff st2.1 id).mp hnone2) hmem2
  -- second run skips everything
  have hallskip2 : ∀ s ∈ shifts,
      outcomeSkips (processOutcome api2 t z (getRecord st2.1 s.id) s) = true := by
    intro s hs
    have hscur : s.id ∈ currentIds := List.mem_map_of_mem (fun u => u.id) hs
    have hr2 : getRecord st2.1 s.id = getRecord st1.1 s.id := p2cur s.id hscur
    rcases hout1 : processOutcome api1 t z (getRecord st0.1 s.id) s with _ | _ | ⟨cid, w⟩ | m
    · have hr1 : getRecord st1.1 s.id = getRecord st0.1 s.id :=
        p1nok s hs (fun cid w hc => by rw [hout1] at hc; exact absurd hc (by simp))
      rw [hr2, hr1,
        outcome_of_skipCheck api2 t z _ s (skipCheck_of_unchanged api1 t z _ s hout1)]
      rfl
    · obtain ⟨hskip, hev⟩ := facts_of_unmappable api1 t z _ s hout1
      exact outcomeSkips_of_unmappable_event api2 t z _ s hev
    · have hr1 := p1ok s hs cid w hout1
      rw [hr2, hr1,
        outcome_of_skipCheck api2 t z _ s (skipCheck_some_self s cid (hmod s hs))]
      rfl
    · exact absurd hout1 (hnofail1 s hs m)
  -- second run, per-shift loop
  let st1b := shifts.foldl (procStep api2 t z false) (st2.1, emptyResult, [])
  obtain ⟨q1c, q1u, q1s, q1d, q1e, q1frame, q1ok, q1nok, q1ext, q1nd, q1allskip⟩ :=
    phase1_master api2 t z shifts (st2.1, emptyResult, ([] : List ApiCall)) hids
  obtain ⟨hq1rec, hq1tr⟩ := q1allskip hallskip2
  -- second run, deletion sweep is the identity
  have hident : (getAllShiftIds st1b.1).foldl (delStep api2 false currentIds) st1b = st1b := by
    refine phase2_identity api2 false currentIds (getAllShiftIds st1b.1) st1b ?_
    intro id hm
    rw [hq1rec] at hm
    exact hsub id hm
  have hcnt0 : shifts.countP (fun s => outcomeCreates
      (processOutcome api2 t z (getRecord st2.1 s.id) s)) = 0 :=
    List.countP_eq_zero.mpr (fun s hs => by
      rw [creates_false_of_skips _ (hallskip2 s hs)]
      simp)
  have hupd0 : shifts.countP (fun s => outcomeUpdates
      (processOutcome api2 t z (getRecord st2.1 s.id) s)) = 0 :=
    List.countP_eq_zero.mpr (fun s hs => by
      rw [updates_false_of_skips _ (hallskip2 s hs)]
      simp)
  have hskipn : shifts.countP (fun s => outcomeSkips
      (processOutcome api2 t z (getRecord st2.1 s.id) s)) = shifts.length :=
    List.countP_eq_length.mpr (fun s hs => hallskip2 s hs)
  have herr2 : shifts.filterMap (fun s => itemError api2 t z (getRecord st2.1 s.id) s)
      = [] :=
    List.filterMap_eq_nil_iff.mpr (fun s hs => itemError_none_of_skips api2 t z _ s
      (hallskip2 s hs))
  refine ⟨?_, ?_, ?_, ?_, ?_, ?_⟩
  · show ((getAllShiftIds st1b.1).foldl (delStep api2 false currentIds) st1b).2.1.created = 0
    rw [hident, q1c, hcnt0]
    rfl
  · show ((getAllShiftIds st1b.1).foldl (delStep api2 false currentIds) st1b).2.1.updated = 0
    rw [hident, q1u, hupd0]
    rfl
  · show ((getAllShiftIds st1b.1).foldl (delStep api2 false currentIds) st1b).2.1.deleted = 0
    rw [hident, q1d]
    rfl
  · show ((getAllShiftIds st1b.1).foldl (delStep api2 false currentIds) st1b).2.1.skipped
      = shifts.length
    rw [hident, q1s, hskipn]
    simp [emptyResult]
  · show ((getAllShiftIds st1b.1).foldl (delStep api2 false currentIds) st1b).2.1.errors = []
    rw [hident, q1e, herr2]
    rfl
  · show ((getAllShiftIds st1b.1).foldl (delStep api2 false currentIds) st1b).2.2 = []
    rw [hident, hq1tr]

/-- C8: a dry run produces the same created/updated/deleted/skipped
classification as the corresponding real run (compared against a real run
that reports no errors), while performing no calendar API call, no ledger
record mutation and no ledger persistence — the in-memory ledger state
after the dry run is the input state, and no file is written. -/
theorem sync_dryRun_frame (api : GoogleCalendarApi) (t z now path : String)
    (shifts : List Shift) (state : SyncState)
    (hids : (shifts.map (fun s => s.id)).Nodup)
    (hkeys : (getAllShiftIds state.records).Nodup)
    (hreal : (sync api t z false shifts state now path).result.errors = []) :
    (sync api t z true shifts state now path).result.created
        = (sync api t z false shifts state now path).result.created
    ∧ (sync api t z true shifts state now path).result.updated
        = (sync api t z false shifts state now path).result.updated
    ∧ (sync api t z true shifts state now path).result.deleted
        = (sync api t z false shifts state now path).result.deleted
    ∧ (sync api t z true shifts state now path).result.skipped
        = (sync api t z false shifts state now path).result.skipped
    ∧ (sync api t z true shifts state now path).result.errors = []
    ∧ (sync api t z true shifts state now path).apiCalls = []
    ∧ (sync api t z true shifts state now path).state = state
    ∧ (sync api t z true shifts state now path).saveOps = [] := by
  let currentIds := shifts.map (fun s => s.id)
  let st0 : LoopSt := (state.records, emptyResult, [])
  let d1 := shifts.foldl (procStep api t z true) st0
  let dids := getAllShiftIds d1.1
  let d2 := dids.foldl (delStep api true currentIds) d1
  let r1 := shifts.foldl (procStep api t z false) st0
  let rids := getAllShiftIds r1.1
  let r2 := rids.foldl (delStep api false currentIds) r1
  obtain ⟨dd1rec, dd1tr, dd1err, dd1del, dd1cr, dd1up, dd1sk⟩ :=
    phase1_dry_master api t z shifts st0
  obtain ⟨dd2rec, dd2tr, dd2err, dd2cr, dd2up, dd2sk, dd2del⟩ :=
    phase2_dry_master api currentIds dids d1
  have hrealb : r2.2.1.errors = [] := hreal
  obtain ⟨p1c, p1u, p1s, p1d, p1e, p1frame, p1ok, p1nok, p1ext, p1nd, p1allskip⟩ :=
    phase1_master api t z shifts st0 hids
  have hndr : rids.Nodup := p1nd hkeys
  obtain ⟨p2c, p2u, p2s, p2d, p2e, p2frame, p2cur, p2del, p2none, p2id⟩ :=
    phase2_master api currentIds rids r1 hndr
  have h0e : st0.2.1.errors = [] := rfl
  have hsplit := List.append_eq_nil.mp (by
    have he2 := p2e
    rw [p1e, h0e, List.nil_append] at he2
    rw [he2] at hrealb
    exact hrealb)
  have hnofail : ∀ s ∈ shifts, ∀ m,
      processOutcome api t z (getRecord st0.1 s.id) s ≠ .failed m := by
    intro s hs
    exact not_failed_of_itemError_none api t z _ s
      ((List.filterMap_eq_nil_iff.mp hsplit.1) s hs)
  have hcc : shifts.countP (fun s => classify t z (getRecord st0.1 s.id) s == Class.create)
      = shifts.countP (fun s => outcomeCreates (processOutcome api t z
          (getRecord st0.1 s.id) s)) :=
    List.countP_congr (fun s hs => by
      rw [(outcome_classify_eq api t z _ s (hnofail s hs)).1])
  have hcu : shifts.countP (fun s => classify t z (getRecord st0.1 s.id) s == Class.update)
      = shifts.countP (fun s => outcomeUpdates (processOutcome api t z
          (getRecord st0.1 s.id) s)) :=
    List.countP_congr (fun s hs => by
      rw [(outcome_classify_eq api t z _ s (hnofail s hs)).2.1])
  have hcs : shifts.countP (fun s => classify t z (getRecord st0.1 s.id) s == Class.skip)
      = shifts.countP (fun s => outcomeSkips (processOutcome api t z
          (getRecord st0.1 s.id) s)) :=
    List.countP_congr (fun s hs => by
      rw [(outcome_classify_eq api t z _ s (hnofail s hs)).2.2])
  -- deletion counts agree
  obtain ⟨ext, hext, hextsub⟩ := p1ext
  have hd1rec_ids : dids = getAllShiftIds st0.1 := by
    show getAllShiftIds d1.1 = getAllShiftIds st0.1
    rw [dd1rec]
  have hdel_eq : dids.countP (fun id => !currentIds.contains id
        && (getRecord d1.1 id).isSome)
      = rids.countP (fun id => !currentIds.contains id
        && (delOutcome api (getRecord r1.1 id) == DelOutcome.deleted)) := by
    have hrids : rids = getAllShiftIds st0.1 ++ ext := hext
    rw [hd1rec_ids, hrids, List.countP_append]
    have hextzero : ext.countP (fun id => !currentIds.contains id
        && (delOutcome api (getRecord r1.1 id) == DelOutcome.deleted)) = 0 := by
      refine List.countP_eq_zero.mpr ?_
      intro id hm
      have hcon : currentIds.contains id = true := List.elem_iff.mpr (hextsub id hm)
      rw [hcon]
      simp
    rw [hextzero, Nat.add_zero]
    refine List.countP_congr ?_
    intro id hm
    rw [dd1rec]
    by_cases hidc : id ∈ currentIds
    · have hcon : currentIds.contains id = true := List.elem_iff.mpr hidc
      rw [hcon]
      simp
    · have hc_false : currentIds.contains id = false := by
        rcases hcc2 : currentIds.contains id with _ | _
        · rfl
        · exact absurd (List.elem_iff.mp hcc2) hidc
      have hfr : getRecord r1.1 id = getRecord st0.1 id := p1frame id hidc
      have hmem_rids : id ∈ rids := by
        rw [hrids]
        exact List.mem_append_left ext hm
      have hfmem : id ∈ rids.filter (fun i => !currentIds.contains i) :=
        List.mem_filter.mpr ⟨hmem_rids, by rw [hc_false]; rfl⟩
      have hde : delError api (getRecord r1.1 id) id = none :=
        (List.filterMap_eq_nil_iff.mp hsplit.2) id hfmem
      have hnf := delOutcome_not_failed_of_delError_none api _ id hde
      rw [hc_false, delOutcome_deleted_iff_isSome api _ hnf, hfr]
  refine ⟨?_, ?_, ?_, ?_, ?_, ?_, ?_, ?_⟩
  · show d2.2.1.created = r2.2.1.created
    rw [dd2cr, dd1cr, p2c, p1c, hcc]
  · show d2.2.1.updated = r2.2.1.updated
    rw [dd2up, dd1up, p2u, p1u, hcu]
  · show d2.2.1.deleted = r2.2.1.deleted
    rw [dd2del, dd1del, p2d, p1d, hdel_eq]
  · show d2.2.1.skipped = r2.2.1.skipped
    rw [dd2sk, dd1sk, p2s, p1s, hcs]
  · show d2.2.1.errors = []
    rw [dd2err, dd1err]
    rfl
  · show d2.2.2 = []
    rw [dd2tr, dd1tr]
  · show { state with records := d2.1 } = state
    rw [dd2rec, dd1rec]
  · rfl

/-- C9: per-item failure isolation — over any shift set with distinct ids
and any well-formed ledger, the error list of a run consists exactly of one
named message per failing item (a shift whose mapping/upsert fails, or a
stale ledger entry whose delete fails, each message naming the shift id);
every successfully upserted shift is still recorded in the final ledger,
which is persisted; and the run exits non-zero exactly when the error list
is non-empty. -/
theorem sync_error_isolation (api : GoogleCalendarApi) (t z now path : String)
    (shifts : List Shift) (state : SyncState)
    (hids : (shifts.map (fun s => s.id)).Nodup)
    (hkeys : (getAllShiftIds state.records).Nodup) :
    (sync api t z false shifts state now path).result.errors
      = shifts.filterMap (fun s => itemError api t z (getRecord state.records s.id) s)
        ++ ((getAllShiftIds state.records).filter
              (fun id => !(shifts.map (fun s => s.id)).contains id)).filterMap
            (fun id => delError api (getRecord state.records id) id)
    ∧ (∀ s ∈ shifts, ∀ cid w,
        processOutcome api t z (getRecord state.records s.id) s = .upserted cid w →
        getRecord (sync api t z false shifts state now path).state.records s.id
          = some { calendarEventId := cid, lastModified := s.lastModifiedDateTime })
    ∧ (sync api t z false shifts state now path).saveOps
      = [FsOp.writeFile path
          (serializeState (sync api t z false shifts state now path).state)]
    ∧ (mainExitCode (sync api t z false shifts state now path).result = 1
        ↔ (sync api t z false shifts state now path).result.errors ≠ []) := by
  let currentIds := shifts.map (fun s => s.id)
  let st0 : LoopSt := (state.records, emptyResult, [])
  let r1 := shifts.foldl (procStep api t z false) st0
  let rids := getAllShiftIds r1.1
  let r2 := rids.foldl (delStep api false currentIds) r1
  obtain ⟨p1c, p1u, p1s, p1d, p1e, p1frame, p1ok, p1nok, p1ext, p1nd, p1allskip⟩ :=
    phase1_master api t z shifts st0 hids
  have hndr : rids.Nodup := p1nd hkeys
  obtain ⟨p2c, p2u, p2s, p2d, p2e, p2frame, p2cur, p2del, p2none, p2id⟩ :=
    phase2_master api currentIds rids r1 hndr
  have h0e : st0.2.1.errors = [] := rfl
  obtain ⟨ext, hext, hextsub⟩ := p1ext
  have hdelpart : (rids.filter (fun id => !currentIds.contains id)).filterMap
        (fun id => delError api (getRecord r1.1 id) id)
      = ((getAllShiftIds st0.1).filter (fun id => !currentIds.contains id)).filterMap
        (fun id => delError api (getRecord st0.1 id) id) := by
    have hrids : rids = getAllShiftIds st0.1 ++ ext := hext
    rw [hrids, List.filter_append]
    have hextnil : ext.filter (fun id => !currentIds.contains id) = [] := by
      rw [List.filter_eq_nil_iff]
      intro id hm
      have hcon : currentIds.contains id = true := List.elem_iff.mpr (hextsub id hm)
      rw [hcon]
      simp
    rw [hextnil, List.append_nil]
    refine List.filterMap_congr ?_
    intro id hm
    have hm2 := List.mem_filter.mp hm
    have hnc : id ∉ currentIds := by
      intro hmem
      have hcon : currentIds.contains id = true := List.elem_iff.mpr hmem
      rw [hcon] at hm2
      simpa using hm2.2
    rw [p1frame id hnc]
  refine ⟨?_, ?_, ?_, ?_⟩
  · show r2.2.1.errors = _
    rw [p2e, p1e, h0e, List.nil_append, hdelpart]
  · intro s hs cid w hupo
    have hscur : s.id ∈ currentIds := List.mem_map_of_mem (fun u => u.id) hs
    show getRecord r2.1 s.id = _
    rw [p2cur s.id hscur]
    exact p1ok s hs cid w hupo
  · rfl
  · exact mainExitCode_one_iff _

/-- Witness for the idempotence theorem at a concrete successful run. -/
theorem sync_idempotent_witness :
    (sync sampleApi "Work Shift" "UTC" false [sampleShift]
      (sync sampleApi "Work Shift" "UTC" false [sampleShift] sampleState "NOW1" "p").state
      "NOW2" "p").result.created = 0 :=
  (sync_idempotent sampleApi sampleApi "Work Shift" "UTC" "NOW1" "NOW2" "p"
    [sampleShift] sampleState (by decide) (by decide) (by decide) (by rfl)).1

/-- Witness for the dry-run frame theorem at a concrete run. -/
theorem sync_dryRun_frame_witness :
    (sync sampleApi "Work Shift" "UTC" true [sampleShift] sampleState "NOW" "p").result.created
      = (sync sampleApi "Work Shift" "UTC" false [sampleShift] sampleState "NOW" "p").result.created :=
  (sync_dryRun_frame sampleApi "Work Shift" "UTC" "NOW" "p" [sampleShift] sampleState
    (by decide) (by decide) (by rfl)).1

/-- Witness for the failure-isolation theorem at a concrete run. -/
theorem sync_error_isolation_witness :
    (sync sampleApi "Work Shift" "UTC" false [sampleShift] sampleState "NOW" "p").saveOps
      = [FsOp.writeFile "p"
          (serializeState
            (sync sampleApi "Work Shift" "UTC" false [sampleShift] sampleState "NOW" "p").state)] :=
  (sync_error_isolation sampleApi "Work Shift" "UTC" "NOW" "p" [sampleShift] sampleState
    (by decide) (by decide)).2.2.1

end ShiftsGcal
